import Mathlib

/-!
Verification of the workflow step interpreter of the `workflow-engine` service
(`app/services/workflow.py`, models in `app/models/workflow.py`, versioned
update endpoint in `app/api/v1/workflows.py`).

The embedding is a shallow one: JSON column values become `JValue`, Python
exceptions become `PyErr` carried in `Except`, the SQLAlchemy session becomes
an explicit `RunState` whose `snapshots` list records the execution row as of
each `session.commit()`, and the outbound HTTP client becomes an oracle
function `HttpRequest → HttpResponse`.  `asyncio.sleep` only advances an
abstract clock.  Machine floats do not occur in the modelled inputs, so JSON
numbers are embedded as `Int`.
-/

/-- JSON values as stored in the `steps`, `input_data`, `output_data`, ...
JSON columns.  Objects keep insertion order, mirroring Python dicts. -/
inductive JValue where
  | null : JValue
  | bool (b : Bool) : JValue
  | num (n : Int) : JValue
  | str (s : String) : JValue
  | arr (xs : List JValue) : JValue
  | obj (fields : List (String × JValue)) : JValue
deriving Repr

/-- Trigger types of a workflow definition (`TriggerType` enum). -/
inductive TriggerType where
  | event | schedule | manual | api
deriving Repr, DecidableEq

/-- Status of a workflow definition (`WorkflowStatus` enum). -/
inductive WorkflowStatus where
  | draft | active | archived | disabled
deriving Repr, DecidableEq

/-- Status of a workflow execution (`ExecutionStatus` enum): six members. -/
inductive ExecutionStatus where
  | pending | running | completed | failed | cancelled | suspended
deriving Repr, DecidableEq

/-- Step types (`StepType` enum).  The enum has six members even though the
dispatch in the interpreter only handles the first five. -/
inductive StepType where
  | http_request | condition | email | delay | function | subprocess
deriving Repr, DecidableEq

/-- The string value of each `StepType` member. -/
def stepTypeValue : StepType → String
  | .http_request => "http_request"
  | .condition => "condition"
  | .email => "email"
  | .delay => "delay"
  | .function => "function"
  | .subprocess => "subprocess"

/-- Python exceptions that the interpreter can raise internally. -/
inductive PyErr where
  | valueError (msg : String) : PyErr
  | keyError (key : String) : PyErr
  | typeError (msg : String) : PyErr
  | attributeError (msg : String) : PyErr
  | httpStatusError (status : Nat) : PyErr
  | jsonDecodeError : PyErr
deriving Repr, DecidableEq

/-- `str(e)` for the modelled exceptions (`KeyError` stringifies to the
quoted key, the others to their message). -/
def pyStrErr : PyErr → String
  | .valueError m => m
  | .keyError k => "\x27" ++ k ++ "\x27"
  | .typeError m => m
  | .attributeError m => m
  | .httpStatusError c => "HTTP status error " ++ toString c
  | .jsonDecodeError => "Expecting value"

/-- `d[k]`: dictionary subscription; `KeyError` on a missing key, `TypeError`
when the value is not a dict. -/
def jGet (v : JValue) (k : String) : Except PyErr JValue :=
  match v with
  | .obj fs =>
    match fs.lookup k with
    | some x => .ok x
    | none => .error (.keyError k)
  | _ => .error (.typeError "value is not subscriptable")

/-- `d.get(k, default)`. -/
def jGetD (v : JValue) (k : String) (d : JValue) : JValue :=
  match v with
  | .obj fs => (fs.lookup k).getD d
  | _ => d

/-- `k in d` on a dict value (`False` on anything else; the interpreter only
reaches this test on step dicts). -/
def jHasKey (v : JValue) (k : String) : Bool :=
  match v with
  | .obj fs => fs.any (fun kv => kv.1 == k)
  | _ => false

/-- Python dict assignment `d[k] = v`: overwrite in place, preserving
insertion order, or append a fresh key at the end. -/
def updateAssoc : List (String × JValue) → String → JValue → List (String × JValue)
  | [], k, v => [(k, v)]
  | (k', v') :: rest, k, v =>
    if k' == k then (k', v) :: rest else (k', v') :: updateAssoc rest k v

mutual
/-- Python `==` on modelled JSON values.  Python booleans are `int`s, so
`True == 1` holds; values of unrelated types compare unequal. -/
def pyEq : JValue → JValue → Bool
  | .null, .null => true
  | .bool a, .bool b => a == b
  | .bool a, .num b => (if a then (1 : Int) else 0) == b
  | .num a, .bool b => a == (if b then (1 : Int) else 0)
  | .num a, .num b => a == b
  | .str a, .str b => a == b
  | .arr a, .arr b => pyEqList a b
  | .obj a, .obj b => pyEqObj a b
  | _, _ => false

/-- Elementwise Python `==` on lists. -/
def pyEqList : List JValue → List JValue → Bool
  | [], [] => true
  | a :: as, b :: bs => pyEq a b && pyEqList as bs
  | _, _ => false

/-- Python `==` on dicts (canonical insertion-ordered form). -/
def pyEqObj : List (String × JValue) → List (String × JValue) → Bool
  | [], [] => true
  | (ka, va) :: as, (kb, vb) :: bs => ka == kb && pyEq va vb && pyEqObj as bs
  | _, _ => false
end

/-- `isinstance(x, (int, float))`: Python booleans are instances of `int`. -/
def isNumericPy : JValue → Bool
  | .num _ => true
  | .bool _ => true
  | _ => false

/-- Numeric value of a Python number (`True = 1`, `False = 0`). -/
def numValPy : JValue → Int
  | .num n => n
  | .bool b => if b then 1 else 0
  | _ => 0

/-- Python `<`, `>`, `<=`, `>=` as a three-way comparison: numbers (booleans
included) compare numerically, strings lexicographically, and any other
mixture raises `TypeError`, as the source's bare `left > right` would. -/
def pyCmp (a b : JValue) : Except PyErr Ordering :=
  if isNumericPy a && isNumericPy b then
    .ok (compare (numValPy a) (numValPy b))
  else
    match a, b with
    | .str x, .str y => .ok (compare x y)
    | _, _ => .error (.typeError "comparison not supported between operand types")

mutual
/-- Python `str()` of a modelled JSON value. -/
def pyStr : JValue → String
  | .null => "None"
  | .bool true => "True"
  | .bool false => "False"
  | .num n => toString n
  | .str s => s
  | .arr xs => "[" ++ pyStrList xs ++ "]"
  | .obj fs => "\x7b" ++ pyStrObj fs ++ "\x7d"

/-- `repr` of container elements (`str` elements get quoted). -/
def pyRepr : JValue → String
  | .str s => "\x27" ++ s ++ "\x27"
  | .null => "None"
  | .bool true => "True"
  | .bool false => "False"
  | .num n => toString n
  | .arr xs => "[" ++ pyStrList xs ++ "]"
  | .obj fs => "\x7b" ++ pyStrObj fs ++ "\x7d"

/-- Comma-joined `repr`s of list elements. -/
def pyStrList : List JValue → String
  | [] => ""
  | [x] => pyRepr x
  | x :: xs => pyRepr x ++ ", " ++ pyStrList xs

/-- Comma-joined `repr`s of dict items. -/
def pyStrObj : List (String × JValue) → String
  | [] => ""
  | [(k, v)] => "\x27" ++ k ++ "\x27: " ++ pyRepr v
  | (k, v) :: fs => "\x27" ++ k ++ "\x27: " ++ pyRepr v ++ ", " ++ pyStrObj fs
end

/-- Core of Python `str.replace`, on character lists, with explicit fuel so
that it both terminates structurally and evaluates inside the kernel.  One
unit of fuel is spent per emitted position; `fuel ≥ s.length` processes all
of `s`.  Matches are replaced left to right and the replacement text is never
rescanned, exactly like `str.replace`. -/
def replaceF (pat rep : List Char) : Nat → List Char → List Char
  | _, [] => []
  | 0, s => s
  | fuel + 1, c :: cs =>
    if !pat.isEmpty && pat.isPrefixOf (c :: cs) then
      rep ++ replaceF pat rep fuel ((c :: cs).drop pat.length)
    else
      c :: replaceF pat rep fuel cs

/-- Python `s.replace(pat, rep)` (for the nonempty patterns the interpolator
uses). -/
def pyReplace (s pat rep : String) : String :=
  String.mk (replaceF pat.data rep.data s.data.length s.data)

/-- The interpreter's working context: `{"input": ..., "output": {}, "vars": ...}`. -/
structure Ctx where
  input : List (String × JValue)
  output : List (String × JValue)
  vars : List (String × JValue)
deriving Repr

/-- The context dict as one JSON value, the shape `_get_value` traverses. -/
def ctxObj (ctx : Ctx) : JValue :=
  .obj [("input", .obj ctx.input), ("output", .obj ctx.output), ("vars", .obj ctx.vars)]

/-- The template pattern for the `input` namespace. -/
def inputPattern (k : String) : String := "\x7b\x7b input." ++ k ++ " \x7d\x7d"

/-- The template pattern for the `vars` namespace. -/
def varsPattern (k : String) : String := "\x7b\x7b vars." ++ k ++ " \x7d\x7d"

/-- `_interpolate`: the naive replace loop — one `str.replace` per `input`
entry, then one per `vars` entry, in dict insertion order. -/
def interpolate (template : String) (ctx : Ctx) : String :=
  let r1 := ctx.input.foldl
    (fun acc kv => pyReplace acc (inputPattern kv.1) (pyStr kv.2)) template
  ctx.vars.foldl
    (fun acc kv => pyReplace acc (varsPattern kv.1) (pyStr kv.2)) r1

/-- Escape of `"` and `\` inside a serialized JSON string. -/
def escapeJson (s : String) : String :=
  String.mk (s.data.foldr
    (fun c acc =>
      if c = '"' then '\\' :: '"' :: acc
      else if c = '\\' then '\\' :: '\\' :: acc
      else c :: acc) [])

mutual
/-- `json.dumps` with the default `", "` / `": "` separators. -/
def jsonDumps : JValue → String
  | .null => "null"
  | .bool true => "true"
  | .bool false => "false"
  | .num n => toString n
  | .str s => "\"" ++ escapeJson s ++ "\""
  | .arr xs => "[" ++ jsonDumpsArr xs ++ "]"
  | .obj fs => "\x7b" ++ jsonDumpsObj fs ++ "\x7d"

/-- Serialized list items. -/
def jsonDumpsArr : List JValue → String
  | [] => ""
  | [x] => jsonDumps x
  | x :: xs => jsonDumps x ++ ", " ++ jsonDumpsArr xs

/-- Serialized dict items. -/
def jsonDumpsObj : List (String × JValue) → String
  | [] => ""
  | [(k, v)] => "\"" ++ escapeJson k ++ "\": " ++ jsonDumps v
  | (k, v) :: fs => "\"" ++ escapeJson k ++ "\": " ++ jsonDumps v ++ ", " ++ jsonDumpsObj fs
end

/-- JSON whitespace skipping. -/
def skipWs : List Char → List Char
  | c :: cs => if c = ' ' ∨ c = '\n' ∨ c = '\t' ∨ c = '\r' then skipWs cs else c :: cs
  | [] => []

/-- Body of a JSON string literal up to its closing quote, undoing the
escapes `escapeJson` produces (plus `\n`, `\t`). -/
def parseJsonStr : List Char → Except PyErr (String × List Char)
  | [] => .error .jsonDecodeError
  | '"' :: rest => .ok ("", rest)
  | '\\' :: c :: rest =>
    match parseJsonStr rest with
    | .ok (s, r) =>
      let c' := if c = 'n' then '\n' else if c = 't' then '\t' else c
      .ok (String.mk (c' :: s.data), r)
    | .error e => .error e
  | c :: rest =>
    match parseJsonStr rest with
    | .ok (s, r) => .ok (String.mk (c :: s.data), r)
    | .error e => .error e

/-- Longest digit run at the head of the input. -/
def takeDigits : List Char → (List Char × List Char)
  | [] => ([], [])
  | c :: cs =>
    if c.isDigit then
      let (ds, rest) := takeDigits cs
      (c :: ds, rest)
    else ([], c :: cs)

/-- Digit run to a natural number. -/
def digitsToNat (ds : List Char) : Nat :=
  ds.foldl (fun acc c => acc * 10 + (c.toNat - 48)) 0

mutual
/-- `json.loads`, fuel-guarded recursive descent over the modelled JSON
grammar (integers only; the sources never feed it float literals). -/
def parseJson : Nat → List Char → Except PyErr (JValue × List Char)
  | 0, _ => .error .jsonDecodeError
  | fuel + 1, s =>
    match skipWs s with
    | [] => .error .jsonDecodeError
    | c :: cs =>
      if c = 't' then
        if ['r', 'u', 'e'].isPrefixOf cs then .ok (.bool true, cs.drop 3)
        else .error .jsonDecodeError
      else if c = 'f' then
        if ['a', 'l', 's', 'e'].isPrefixOf cs then .ok (.bool false, cs.drop 4)
        else .error .jsonDecodeError
      else if c = 'n' then
        if ['u', 'l', 'l'].isPrefixOf cs then .ok (.null, cs.drop 3)
        else .error .jsonDecodeError
      else if c = '"' then
        match parseJsonStr cs with
        | .ok (s', r) => .ok (.str s', r)
        | .error e => .error e
      else if c = '[' then
        parseJsonArr fuel cs
      else if c = '\x7b' then
        parseJsonObj fuel cs
      else if c = '-' then
        match takeDigits cs with
        | ([], _) => .error .jsonDecodeError
        | (ds, rest) => .ok (.num (-(digitsToNat ds : Int)), rest)
      else if c.isDigit then
        match takeDigits (c :: cs) with
        | ([], _) => .error .jsonDecodeError
        | (ds, rest) => .ok (.num (digitsToNat ds : Int), rest)
      else .error .jsonDecodeError

/-- List items after `[`. -/
def parseJsonArr : Nat → List Char → Except PyErr (JValue × List Char)
  | 0, _ => .error .jsonDecodeError
  | fuel + 1, s =>
    match skipWs s with
    | ']' :: rest => .ok (.arr [], rest)
    | s' =>
      match parseJson fuel s' with
      | .error e => .error e
      | .ok (v, r) =>
        match parseJsonArrTail fuel r with
        | .error e => .error e
        | .ok (vs, r') => .ok (.arr (v :: vs), r')

/-- `, item`* `]` after a first list item. -/
def parseJsonArrTail : Nat → List Char → Except PyErr (List JValue × List Char)
  | 0, _ => .error .jsonDecodeError
  | fuel + 1, s =>
    match skipWs s with
    | ']' :: rest => .ok ([], rest)
    | ',' :: rest =>
      match parseJson fuel rest with
      | .error e => .error e
      | .ok (v, r) =>
        match parseJsonArrTail fuel r with
        | .error e => .error e
        | .ok (vs, r') => .ok (v :: vs, r')
    | _ => .error .jsonDecodeError

/-- Dict items after `{`. -/
def parseJsonObj : Nat → List Char → Except PyErr (JValue × List Char)
  | 0, _ => .error .jsonDecodeError
  | fuel + 1, s =>
    match skipWs s with
    | '\x7d' :: rest => .ok (.obj [], rest)
    | s' =>
      match parseJsonPair fuel s' with
      | .error e => .error e
      | .ok (kv, r) =>
        match parseJsonObjTail fuel r with
        | .error e => .error e
        | .ok (kvs, r') => .ok (.obj (kv :: kvs), r')

/-- `, pair`* `}` after a first dict item. -/
def parseJsonObjTail : Nat → List Char → Except PyErr (List (String × JValue) × List Char)
  | 0, _ => .error .jsonDecodeError
  | fuel + 1, s =>
    match skipWs s with
    | '\x7d' :: rest => .ok ([], rest)
    | ',' :: rest =>
      match parseJsonPair fuel rest with
      | .error e => .error e
      | .ok (kv, r) =>
        match parseJsonObjTail fuel r with
        | .error e => .error e
        | .ok (kvs, r') => .ok (kv :: kvs, r')
    | _ => .error .jsonDecodeError

/-- A single `"key": value` pair. -/
def parseJsonPair : Nat → List Char → Except PyErr ((String × JValue) × List Char)
  | 0, _ => .error .jsonDecodeError
  | fuel + 1, s =>
    match skipWs s with
    | '"' :: rest =>
      match parseJsonStr rest with
      | .error e => .error e
      | .ok (k, r) =>
        match skipWs r with
        | ':' :: r' =>
          match parseJson fuel r' with
          | .error e => .error e
          | .ok (v, r'') => .ok ((k, v), r'')
        | _ => .error .jsonDecodeError
    | _ => .error .jsonDecodeError
end

/-- `json.loads` on a whole document. -/
def jsonLoads (s : String) : Except PyErr JValue :=
  match parseJson (s.data.length + 1) s.data with
  | .error e => .error e
  | .ok (v, rest) =>
    match skipWs rest with
    | [] => .ok v
    | _ => .error .jsonDecodeError

/-- `StepType(step["type"])`: look up the tag and parse it against the enum;
an unknown or non-string tag raises `ValueError` (this happens before the
per-step `try` block in `_execute_steps`). -/
def parseStepType (step : JValue) : Except PyErr StepType :=
  match jGet step "type" with
  | .error e => .error e
  | .ok (.str s) =>
    if s == "http_request" then .ok .http_request
    else if s == "condition" then .ok .condition
    else if s == "email" then .ok .email
    else if s == "delay" then .ok .delay
    else if s == "function" then .ok .function
    else if s == "subprocess" then .ok .subprocess
    else .error (.valueError ("\x27" ++ s ++ "\x27 is not a valid StepType"))
  | .ok v => .error (.valueError (pyStr v ++ " is not a valid StepType"))

/-- `_get_value`: a `variable` operand is a dotted path walked through the
context dict starting at its top level (`input` / `output` / `vars`); a
`literal` operand is returned as-is without consulting the context. -/
def getValue (valueDef : JValue) (ctx : Ctx) : Except PyErr JValue :=
  match jGet valueDef "type" with
  | .error e => .error e
  | .ok t =>
    if pyEq t (.str "variable") then
      match jGet valueDef "path" with
      | .error e => .error e
      | .ok (.str p) => (p.splitOn ".").foldlM (fun cur part => jGet cur part) (ctxObj ctx)
      | .ok _ => .error (.attributeError "value has no attribute split")
    else if pyEq t (.str "literal") then
      jGet valueDef "value"
    else
      .error (.valueError ("Unsupported value type: " ++ pyStr t))

/-- `_execute_condition`: flat comparison between two operands. -/
def execCondition (step : JValue) (ctx : Ctx) : Except PyErr JValue :=
  match jGet step "condition" with
  | .error e => .error e
  | .ok cond =>
    match jGet cond "type" with
    | .error e => .error e
    | .ok t =>
      if pyEq t (.str "comparison") then
        match jGet cond "left" with
        | .error e => .error e
        | .ok leftDef =>
          match getValue leftDef ctx with
          | .error e => .error e
          | .ok left =>
            match jGet cond "right" with
            | .error e => .error e
            | .ok rightDef =>
              match getValue rightDef ctx with
              | .error e => .error e
              | .ok right =>
                match jGet cond "operator" with
                | .error e => .error e
                | .ok op =>
                  if pyEq op (.str "eq") then .ok (.bool (pyEq left right))
                  else if pyEq op (.str "neq") then .ok (.bool (!pyEq left right))
                  else if pyEq op (.str "gt") then
                    match pyCmp left right with
                    | .error e => .error e
                    | .ok o => .ok (.bool (o == .gt))
                  else if pyEq op (.str "gte") then
                    match pyCmp left right with
                    | .error e => .error e
                    | .ok o => .ok (.bool (o == .gt || o == .eq))
                  else if pyEq op (.str "lt") then
                    match pyCmp left right with
                    | .error e => .error e
                    | .ok o => .ok (.bool (o == .lt))
                  else if pyEq op (.str "lte") then
                    match pyCmp left right with
                    | .error e => .error e
                    | .ok o => .ok (.bool (o == .lt || o == .eq))
                  else .error (.valueError ("Unsupported operator: " ++ pyStr op))
      else .error (.valueError ("Unsupported condition type: " ++ pyStr t))

/-- `_execute_delay`: validate `seconds` with
`isinstance(seconds, (int, float)) and seconds >= 0` (Python booleans count
as `int`), then sleep; returns `None` and the slept duration. -/
def execDelay (step : JValue) : Except PyErr (JValue × Nat) :=
  match jGet step "seconds" with
  | .error e => .error e
  | .ok s =>
    if !isNumericPy s || numValPy s < 0 then
      .error (.valueError "Delay must be a non-negative number")
    else
      .ok (.null, (numValPy s).toNat)

/-- `_execute_function`: only `transform` is implemented — serialize the
template, run it through `_interpolate`, and return the resulting string. -/
def execFunction (step : JValue) (ctx : Ctx) : Except PyErr JValue :=
  match jGet step "function" with
  | .error e => .error e
  | .ok f =>
    if pyEq f (.str "transform") then
      match jGet step "template" with
      | .error e => .error e
      | .ok tmpl => .ok (.str (interpolate (jsonDumps tmpl) ctx))
    else .error (.valueError ("Unsupported function type: " ++ pyStr f))

/-- An outbound request as handed to the HTTP client. -/
structure HttpRequest where
  method : JValue
  url : String
  headers : List (String × String)
  body : Option JValue
  timeout : JValue
deriving Repr

/-- A response from the HTTP client oracle; `body` is the raw text that
`response.json()` parses. -/
structure HttpResponse where
  status : Nat
  body : String
deriving Repr

/-- `response.raise_for_status()` succeeds exactly on 2xx. -/
def is2xx (r : HttpResponse) : Bool :=
  200 ≤ r.status && r.status < 300

/-- Header dict comprehension `{k: interpolate(v) for k, v in headers}`;
`_interpolate` is annotated `str → str`, a non-string value fails at
`.replace`. -/
def interpHeaders (h : JValue) (ctx : Ctx) : Except PyErr (List (String × String)) :=
  match h with
  | .obj fs =>
    fs.foldrM (fun kv acc =>
      match kv.2 with
      | .str s => .ok ((kv.1, interpolate s ctx) :: acc)
      | _ => .error (.attributeError "value has no attribute replace")) []
  | _ => .error (.attributeError "value has no attribute items")

/-- The request-preparation half of `_execute_http_request`: fetch `method`,
interpolate `url` and header values, serialize/interpolate/re-parse the JSON
`body` when present, and read `timeout` with its default of 30. -/
def buildHttpRequest (step : JValue) (ctx : Ctx) : Except PyErr HttpRequest :=
  match jGet step "method" with
  | .error e => .error e
  | .ok method =>
    match jGet step "url" with
    | .error e => .error e
    | .ok (.str url) =>
      let url' := interpolate url ctx
      match interpHeaders (jGetD step "headers" (.obj [])) ctx with
      | .error e => .error e
      | .ok headers =>
        let bodyRes : Except PyErr (Option JValue) :=
          if jHasKey step "body" then
            match jGet step "body" with
            | .error e => .error e
            | .ok b =>
              match jsonLoads (interpolate (jsonDumps b) ctx) with
              | .error e => .error e
              | .ok parsed => .ok (some parsed)
          else .ok none
        match bodyRes with
        | .error e => .error e
        | .ok body =>
          .ok ⟨method, url', headers, body, jGetD step "timeout" (.num 30)⟩
    | .ok _ => .error (.attributeError "value has no attribute replace")

/-- `_execute_http_request`: prepare the request, dispatch it to the client
oracle, raise on a non-2xx status, and parse the response body as JSON. -/
def execHttpRequest (http : HttpRequest → HttpResponse) (step : JValue) (ctx : Ctx) :
    Except PyErr JValue :=
  match buildHttpRequest step ctx with
  | .error e => .error e
  | .ok req =>
    let resp := http req
    if is2xx resp then jsonLoads resp.body
    else .error (.httpStatusError resp.status)

/-- The `if/elif` dispatch of `_execute_steps` over the parsed step type.
`email` is the placeholder (sleep one unit, return `True`); the `subprocess`
member reaches the final `else` and raises `ValueError`.  The second
component is the slept duration. -/
def dispatchStep (http : HttpRequest → HttpResponse) (ty : StepType) (step : JValue)
    (ctx : Ctx) : Except PyErr (JValue × Nat) :=
  match ty with
  | .http_request =>
    match execHttpRequest http step ctx with
    | .error e => .error e
    | .ok v => .ok (v, 0)
  | .condition =>
    match execCondition step ctx with
    | .error e => .error e
    | .ok v => .ok (v, 0)
  | .email => .ok (.bool true, 1)
  | .delay => execDelay step
  | .function =>
    match execFunction step ctx with
    | .error e => .error e
    | .ok v => .ok (v, 0)
  | .subprocess => .error (.valueError ("Unsupported step type: " ++ stepTypeValue .subprocess))

/-- A row of the `workflows` table. -/
structure Workflow where
  id : Nat
  tenant_id : Nat
  name : String
  description : Option String
  trigger_type : TriggerType
  trigger_config : List (String × JValue)
  steps : List JValue
  status : WorkflowStatus
  version : Nat
  is_latest : Bool
deriving Repr

/-- The `error_data` payload `{"error": str(e), "step": current_step}`. -/
structure ErrorData where
  error : String
  step : Option Nat
deriving Repr, DecidableEq

/-- A row of the `workflow_executions` table (timestamps are abstract clock
readings). -/
structure ExecutionRow where
  id : Nat
  workflow_id : Nat
  tenant_id : Nat
  status : ExecutionStatus
  current_step : Option Nat
  input_data : List (String × JValue)
  output_data : List (String × JValue)
  error_data : Option ErrorData
  start_time : Option Nat
  end_time : Option Nat
  retries : Nat
deriving Repr

/-- A row of the `workflow_logs` table. -/
structure LogRow where
  execution_id : Nat
  step : Nat
  step_type : StepType
  message : String
  details : Option JValue
  tenant_id : Nat
  timestamp : Nat
deriving Repr

/-- The session state of one run: the in-memory execution row, the
append-only committed log rows, one snapshot of the execution row per
`session.commit()`, and the abstract clock. -/
structure RunState where
  execution : ExecutionRow
  logs : List LogRow
  snapshots : List ExecutionRow
  clock : Nat
deriving Repr

/-- `session.commit()`: persist the current execution row. -/
def commit (st : RunState) : RunState :=
  { st with snapshots := st.snapshots ++ [st.execution] }

/-- `_log_step`: add one `WorkflowLog` row and commit. -/
def logStep (st : RunState) (step : Nat) (ty : StepType) (msg : String)
    (details : Option JValue) (tenant : Nat) : RunState :=
  commit { st with
    logs := st.logs ++ [⟨st.execution.id, step, ty, msg, details, tenant, st.clock⟩] }

/-- The key a step writes its result under, when it declares one
(`"output_key" in step`). -/
def writtenKey (step : JValue) : Option String :=
  if jHasKey step "output_key" then
    match jGet step "output_key" with
    | .ok (.str k) => some k
    | .ok v => some (pyStr v)
    | .error _ => none
  else none

/-- `if "output_key" in step: context["vars"][step["output_key"]] = result`. -/
def applyOutputKey (step : JValue) (vars : List (String × JValue)) (r : JValue) :
    List (String × JValue) :=
  match writtenKey step with
  | some k => updateAssoc vars k r
  | none => vars

/-- `_execute_steps`, from step index `i` on: set and persist `current_step`,
parse the step type (outside the `try`), dispatch inside the `try`, record
the result under `output_key`, write one success log; on a handler exception
write one failure log and re-raise.  The session state is returned in either
case, since it outlives the exception. -/
def execSteps (http : HttpRequest → HttpResponse) (wf : Workflow) :
    List JValue → Nat → Ctx → RunState →
    Except PyErr (List (String × JValue)) × RunState
  | [], _, ctx, st => (.ok ctx.vars, st)
  | step :: rest, i, ctx, st =>
    let st1 := commit { st with execution := { st.execution with current_step := some i } }
    match parseStepType step with
    | .error e => (.error e, st1)
    | .ok ty =>
      match dispatchStep http ty step ctx with
      | .error e =>
        let st2 := logStep st1 i ty ("Failed to execute " ++ stepTypeValue ty ++ " step")
          (some (.obj [("error", .str (pyStrErr e))])) wf.tenant_id
        (.error e, st2)
      | .ok (r, slept) =>
        let st2 := { st1 with clock := st1.clock + slept }
        let ctx' := { ctx with vars := applyOutputKey step ctx.vars r }
        let st3 := logStep st2 i ty ("Successfully executed " ++ stepTypeValue ty ++ " step")
          (some (.obj [("result", r)])) wf.tenant_id
        execSteps http wf rest (i + 1) ctx' st3

/-- The persistence-free skeleton of `_execute_steps`: the same parse,
dispatch and `vars` threading, reporting on failure the exception together
with the index of the step that raised it. -/
def runStepsPure (http : HttpRequest → HttpResponse) :
    List JValue → Nat → Ctx → Except (PyErr × Nat) (List (String × JValue))
  | [], _, ctx => .ok ctx.vars
  | step :: rest, i, ctx =>
    match parseStepType step with
    | .error e => .error (e, i)
    | .ok ty =>
      match dispatchStep http ty step ctx with
      | .error e => .error (e, i)
      | .ok (r, _) =>
        runStepsPure http rest (i + 1) { ctx with vars := applyOutputKey step ctx.vars r }

/-- The initial context `{"input": input_data, "output": {}, "vars": {}}`. -/
def initCtx (input : List (String × JValue)) : Ctx :=
  ⟨input, [], []⟩

/-- The freshly created `WorkflowExecution` row: status defaults to
`pending`, `current_step` is null, `start_time` is set immediately. -/
def initialExecution (wf : Workflow) (input : List (String × JValue))
    (tenant_id : Nat) : ExecutionRow :=
  { id := 0, workflow_id := wf.id, tenant_id := tenant_id, status := .pending,
    current_step := none, input_data := input, output_data := [],
    error_data := none, start_time := some 0, end_time := none, retries := 0 }

/-- `execute_workflow`: create and persist the execution row, run the steps,
and finish the row as `completed` with the accumulated `vars`, or as `failed`
with `error_data = {"error": str(e), "step": current_step}` plus one
run-level error log.  The exception never escapes: the function is total and
always returns the session state with the execution row. -/
def executeWorkflow (http : HttpRequest → HttpResponse) (wf : Workflow)
    (input : List (String × JValue)) (tenant_id : Nat) : RunState :=
  let st0 := commit {
    execution := initialExecution wf input tenant_id,
    logs := [], snapshots := [], clock := 0 }
  match execSteps http wf wf.steps 0 (initCtx input) st0 with
  | (.ok vars, st1) =>
    commit { st1 with execution := { st1.execution with
      status := .completed, output_data := vars, end_time := some st1.clock } }
  | (.error e, st1) =>
    let ex : ExecutionRow := { st1.execution with
      status := .failed,
      error_data := some ⟨pyStrErr e, st1.execution.current_step⟩,
      end_time := some st1.clock }
    let st2 := logStep { st1 with execution := ex } (ex.current_step.getD 0) .function
      ("Error executing step: " ++ pyStrErr e)
      (some (.obj [("error", .str (pyStrErr e))])) tenant_id
    commit st2

/-- The payload of a `PUT /workflows/{id}` request (`WorkflowUpdate`
schema: the definition fields, no version bookkeeping). -/
structure WorkflowData where
  name : String
  description : Option String
  trigger_type : TriggerType
  trigger_config : List (String × JValue)
  steps : List JValue
  status : WorkflowStatus
deriving Repr

/-- Does a stored workflow row match the `(workflow_id, tenant_id)` filter of
the update endpoint? -/
def matchesKey (wid tid : Nat) (w : Workflow) : Bool :=
  w.id == wid && w.tenant_id == tid

/-- `update_workflow`: select the row by id and tenant (404 when absent, the
`scalar_one_or_none` error when duplicated), build the next version from the
request payload with `version + 1` and the `is_latest = True` default, flip
`is_latest` off on the selected row, and commit both writes in one
transaction — the returned store is produced in a single step. -/
def updateWorkflow (store : List Workflow) (wid tid : Nat) (data : WorkflowData)
    (newId : Nat) : Except Nat (List Workflow × Workflow) :=
  match store.filter (matchesKey wid tid) with
  | [] => .error 404
  | [w] =>
    let newRow : Workflow :=
      { id := newId, tenant_id := tid, name := data.name,
        description := data.description, trigger_type := data.trigger_type,
        trigger_config := data.trigger_config, steps := data.steps,
        status := data.status, version := w.version + 1, is_latest := true }
    let store' :=
      (store.map (fun x => if matchesKey wid tid x then { x with is_latest := false } else x))
        ++ [newRow]
    .ok (store', newRow)
  | _ => .error 500

/-- Number of stored rows flagged as the latest version. -/
def countLatest (store : List Workflow) : Nat :=
  (store.filter (fun w => w.is_latest)).length

/-- An HTTP oracle that answers every request with a bare 500. -/
def http500 : HttpRequest → HttpResponse := fun _ => ⟨500, ""⟩
/-- A workflow row around a given steps list, for concrete runs. -/
def mkWorkflow (steps : List JValue) : Workflow :=
  { id := 1, tenant_id := 7, name := "wf", description := none,
    trigger_type := .manual, trigger_config := [], steps := steps,
    status := .active, version := 1, is_latest := true }
/-- An email step that records its result under `sent`. -/
def emailStepSent : JValue :=
  .obj [("type", .str "email"), ("name", .str "notify"), ("output_key", .str "sent")]
/-- A bare subprocess step. -/
def subprocessStep : JValue :=
  .obj [("type", .str "subprocess"), ("name", .str "sub")]
/-- A delay step with negative seconds. -/
def badDelayStep : JValue :=
  .obj [("type", .str "delay"), ("name", .str "wait"), ("seconds", .num (-5))]
/-- A header- and body-less GET step to the given url. -/
def httpGetStep (u : String) : JValue :=
  .obj [("type", .str "http_request"), ("name", .str "call"),
    ("method", .str "GET"), ("url", .str u)]
/-- A bare email step with no output key. -/
def emailStepPlain : JValue :=
  .obj [("type", .str "email"), ("name", .str "notify")]
/-- A zero-second delay step writing its (null) result under `sent`. -/
def delayZeroSent : JValue :=
  .obj [("type", .str "delay"), ("name", .str "wait"),
    ("seconds", .num 0), ("output_key", .str "sent")]
/-- The condition step `gt (literal 5) (literal 3)`. -/
def gtLiteralStep : JValue :=
  .obj [("condition", .obj [("type", .str "comparison"),
    ("operator", .str "gt"),
    ("left", .obj [("type", .str "literal"), ("value", .num 5)]),
    ("right", .obj [("type", .str "literal"), ("value", .num 3)])])]
/-- A concrete update payload for the C9 witness. -/
def updateDataW : WorkflowData :=
  ⟨"wf-v2", none, TriggerType.manual, [], [], WorkflowStatus.active⟩
/-- Segments joined by a separator, on character lists. -/
def joinL (sep : List Char) : List (List Char) → List Char
  | [] => []
  | [s] => s
  | s :: rest => s ++ sep ++ joinL sep rest
/-- Segments joined by a separator, on strings. -/
def joinSegs (sep : String) : List String → String
  | [] => ""
  | [s] => s
  | s :: rest => s ++ sep ++ joinSegs sep rest
/-- Substring test on character lists. -/
def containsSub (sub : List Char) : List Char → Bool
  | [] => sub.isEmpty
  | c :: cs => sub.isPrefixOf (c :: cs) || containsSub sub cs
/-- `sub in s` on strings. -/
def containsStr (s sub : String) : Bool :=
  containsSub sub.data s.data
/-- The url of the C5 round-trip example. -/
def urlC5 : String := "http://api.example.com/users/\x7b\x7b input.foo \x7d\x7d/profile"

/-- The step loop refines its persistence-free skeleton: the returned value
agrees with `runStepsPure`; the loop touches only `current_step` of the
execution row; it appends logs and snapshots whose step indices stay between
the starting index and the stopping index, snapshots one row per reached
index, and on failure stops exactly at the failing index. -/
theorem execSteps_run (http : HttpRequest → HttpResponse) (wf : Workflow) :
    ∀ (steps : List JValue) (i : Nat) (ctx : Ctx) (st : RunState)
      (r : Except PyErr (List (String × JValue))) (st' : RunState),
    execSteps http wf steps i ctx st = (r, st') →
    ∃ L S,
      st'.execution = { st.execution with current_step := st'.execution.current_step } ∧
      st'.logs = st.logs ++ L ∧
      st'.snapshots = st.snapshots ++ S ∧
      (∀ s ∈ S, ∃ c, i ≤ c ∧ s = { st.execution with current_step := some c }) ∧
      match runStepsPure http steps i ctx with
      | .ok v =>
          r = .ok v ∧
          (∀ l ∈ L, i ≤ l.step ∧ l.step < i + steps.length) ∧
          (∀ s ∈ S, ∀ c, s.current_step = some c → c < i + steps.length) ∧
          (∀ j, i ≤ j → j < i + steps.length → ∃ s ∈ S, s.current_step = some j) ∧
          (steps = [] → st' = st) ∧
          (steps ≠ [] → st'.execution.current_step = some (i + steps.length - 1))
      | .error (e, j) =>
          r = .error e ∧ i ≤ j ∧ j < i + steps.length ∧
          (∀ l ∈ L, i ≤ l.step ∧ l.step ≤ j) ∧
          (∀ s ∈ S, ∀ c, s.current_step = some c → c ≤ j) ∧
          (∀ j', i ≤ j' → j' ≤ j → ∃ s ∈ S, s.current_step = some j') ∧
          st'.execution.current_step = some j := by
  intro steps
  induction steps with
  | nil =>
    intro i ctx st r st' h
    simp only [execSteps] at h
    injection h with h1 h2
    subst h1; subst h2
    refine ⟨[], [], rfl, by simp, by simp, by simp, ?_⟩
    exact ⟨rfl, by simp, by simp,
      fun j h1 h2 => absurd h1 (by simp only [List.length_nil, Nat.add_zero] at h2; omega),
      fun _ => rfl, by simp⟩
  | cons step rest ih =>
    intro i ctx st r st' h
    simp only [execSteps, commit, logStep] at h
    cases hp : parseStepType step with
    | error e =>
      simp only [hp] at h
      injection h with h1 h2
      subst h1; subst h2
      have hpure : runStepsPure http (step :: rest) i ctx = .error (e, i) := by
        simp only [runStepsPure, hp]
      rw [hpure]
      refine ⟨[], [{ st.execution with current_step := some i }], rfl, by simp, by simp, ?_, ?_⟩
      · intro s hs
        simp only [List.mem_singleton] at hs
        exact ⟨i, le_refl i, hs⟩
      · refine ⟨rfl, le_refl i, by simp, by simp, ?_, ?_, rfl⟩
        · intro s hs c hc
          simp only [List.mem_singleton] at hs
          subst hs
          simp only [Option.some.injEq] at hc
          omega
        · intro j' h1 h2
          refine ⟨{ st.execution with current_step := some i }, by simp, ?_⟩
          simp only [Option.some.injEq]
          omega
    | ok ty =>
      simp only [hp] at h
      cases hd : dispatchStep http ty step ctx with
      | error e =>
        simp only [hd] at h
        injection h with h1 h2
        subst h1; subst h2
        have hpure : runStepsPure http (step :: rest) i ctx = .error (e, i) := by
          simp only [runStepsPure, hp, hd]
        rw [hpure]
        refine ⟨[⟨st.execution.id, i, ty, "Failed to execute " ++ stepTypeValue ty ++ " step",
            some (.obj [("error", .str (pyStrErr e))]), wf.tenant_id, st.clock⟩],
          [{ st.execution with current_step := some i },
           { st.execution with current_step := some i }], rfl, by simp, by simp, ?_, ?_⟩
        · intro s hs
          simp only [List.mem_cons, List.mem_singleton, List.not_mem_nil, or_false] at hs
          rcases hs with hs | hs <;> exact ⟨i, le_refl i, hs⟩
        · refine ⟨rfl, le_refl i, by simp, by simp, ?_, ?_, rfl⟩
          · intro s hs c hc
            simp only [List.mem_cons, List.mem_singleton, List.not_mem_nil, or_false] at hs
            rcases hs with hs | hs <;> subst hs <;>
              simp only [Option.some.injEq] at hc <;> omega
          · intro j' h1 h2
            refine ⟨{ st.execution with current_step := some i }, by simp, ?_⟩
            simp only [Option.some.injEq]
            omega
      | ok pr =>
        obtain ⟨r₀, slept⟩ := pr
        simp only [hd] at h
        obtain ⟨L', S', hshape', hlogs', hsnaps', hSfact', hmatch'⟩ := ih _ _ _ _ _ h
        have hpure : runStepsPure http (step :: rest) i ctx =
            runStepsPure http rest (i + 1) { ctx with vars := applyOutputKey step ctx.vars r₀ } := by
          simp only [runStepsPure, hp, hd]
        rw [hpure]
        refine ⟨⟨st.execution.id, i, ty, "Successfully executed " ++ stepTypeValue ty ++ " step",
            some (.obj [("result", r₀)]), wf.tenant_id, st.clock + slept⟩ :: L',
          { st.execution with current_step := some i } ::
            { st.execution with current_step := some i } :: S', ?_, ?_, ?_, ?_, ?_⟩
        · rw [hshape']
        · rw [hlogs']; simp
        · rw [hsnaps']; simp
        · intro s hs
          simp only [List.mem_cons] at hs
          rcases hs with hs | hs | hs
          · exact ⟨i, le_refl i, hs⟩
          · exact ⟨i, le_refl i, hs⟩
          · obtain ⟨c, hc1, hc2⟩ := hSfact' s hs
            exact ⟨c, by omega, hc2⟩
        · rcases hq : runStepsPure http rest (i + 1)
              { ctx with vars := applyOutputKey step ctx.vars r₀ } with ⟨e, j⟩ | v
          · simp only [hq] at hmatch'
            obtain ⟨hr, hij, hjlt, hL', hS', hcomp', hcs'⟩ := hmatch'
            refine ⟨hr, by omega, ?_, ?_, ?_, ?_, hcs'⟩
            · simp only [List.length_cons]; omega
            · intro l hl
              simp only [List.mem_cons] at hl
              rcases hl with hl | hl
              · subst hl
                exact ⟨le_refl i, by show i ≤ j; omega⟩
              · obtain ⟨h1, h2⟩ := hL' l hl
                exact ⟨by omega, h2⟩
            · intro s hs c hc
              simp only [List.mem_cons] at hs
              rcases hs with hs | hs | hs
              · subst hs; simp only [Option.some.injEq] at hc; omega
              · subst hs; simp only [Option.some.injEq] at hc; omega
              · have := hS' s hs c hc
                omega
            · intro j' h1 h2
              rcases Nat.eq_or_lt_of_le h1 with hji | hji
              · exact ⟨{ st.execution with current_step := some i }, by simp, by rw [← hji]⟩
              · obtain ⟨s, hs1, hs2⟩ := hcomp' j' (by omega) (by omega)
                exact ⟨s, by simp [hs1], hs2⟩
          · simp only [hq] at hmatch'
            obtain ⟨hr, hL', hS', hcomp', hnil', hcs'⟩ := hmatch'
            refine ⟨hr, ?_, ?_, ?_, by simp, ?_⟩
            · intro l hl
              simp only [List.mem_cons] at hl
              rcases hl with hl | hl
              · subst hl; simp only [List.length_cons]
                exact ⟨le_refl i, by show i < i + (rest.length + 1); omega⟩
              · obtain ⟨h1, h2⟩ := hL' l hl
                simp only [List.length_cons]
                exact ⟨by omega, by omega⟩
            · intro s hs c hc
              simp only [List.mem_cons] at hs
              rcases hs with hs | hs | hs
              · subst hs; simp only [Option.some.injEq] at hc
                simp only [List.length_cons]; omega
              · subst hs; simp only [Option.some.injEq] at hc
                simp only [List.length_cons]; omega
              · have := hS' s hs c hc
                simp only [List.length_cons]
                omega
            · intro j hj hj'
              rcases Nat.eq_or_lt_of_le hj with hji | hji
              · exact ⟨{ st.execution with current_step := some i }, by simp, by rw [← hji]⟩
              · simp only [List.length_cons] at hj'
                obtain ⟨s, hs1, hs2⟩ := hcomp' j (by omega) (by omega)
                exact ⟨s, by simp [hs1], hs2⟩
            · intro hne
              cases rest with
              | nil =>
                have h3 := hnil' rfl
                subst h3
                simp
              | cons b bs =>
                have h3 := hcs' (by simp)
                rw [h3]
                simp only [Option.some.injEq, List.length_cons]
                omega

/-- Success-side characterization of `execute_workflow` in terms of the pure
skeleton: the row ends `completed` with `output_data` = the accumulated vars,
no error payload, an `end_time`; every persisted snapshot is `pending` or
`completed`, the first snapshot is the fresh row, and every step index got
its own snapshot after the `current_step` update. -/
theorem executeWorkflow_ok (http : HttpRequest → HttpResponse) (wf : Workflow)
    (input : List (String × JValue)) (tid : Nat) (v : List (String × JValue))
    (hpure : runStepsPure http wf.steps 0 (initCtx input) = .ok v) :
    (executeWorkflow http wf input tid).execution.status = .completed ∧
    (executeWorkflow http wf input tid).execution.output_data = v ∧
    (executeWorkflow http wf input tid).execution.error_data = none ∧
    (executeWorkflow http wf input tid).execution.end_time.isSome = true ∧
    (∀ s ∈ (executeWorkflow http wf input tid).snapshots,
      s.status = .pending ∨ s.status = .completed) ∧
    (∃ tl, (executeWorkflow http wf input tid).snapshots =
      initialExecution wf input tid :: tl) ∧
    (∀ j, j < wf.steps.length →
      ∃ s ∈ (executeWorkflow http wf input tid).snapshots, s.current_step = some j) := by
  simp only [executeWorkflow]
  rcases hexec : execSteps http wf wf.steps 0 (initCtx input)
      (commit {
        execution := initialExecution wf input tid,
        logs := [], snapshots := [], clock := 0 }) with ⟨r, st1⟩
  obtain ⟨L, S, hshape, hlogs, hsnaps, hSfact, hmatch⟩ :=
    execSteps_run http wf wf.steps 0 (initCtx input) _ r st1 hexec
  rw [hpure] at hmatch
  obtain ⟨hr, hL, hS, hcomp, hnil, hcs⟩ := hmatch
  subst hr
  refine ⟨rfl, rfl, ?_, rfl, ?_, ?_, ?_⟩
  · show st1.execution.error_data = none
    rw [hshape]
    exact rfl
  · intro s hs
    simp only [commit] at hs
    rw [hsnaps] at hs
    simp only [commit, List.mem_append, List.mem_singleton, List.nil_append,
      List.mem_cons, List.not_mem_nil, or_false] at hs
    rcases hs with (hs | hs) | hs
    · subst hs; left; exact rfl
    · obtain ⟨c, _, hc2⟩ := hSfact s hs
      subst hc2; left
      exact rfl
    · subst hs; right
      exact rfl
  · refine ⟨S ++ [{ st1.execution with
      status := ExecutionStatus.completed, output_data := v,
      end_time := some st1.clock }], ?_⟩
    show (commit { st1 with execution := { st1.execution with
      status := ExecutionStatus.completed, output_data := v,
      end_time := some st1.clock } }).snapshots = _
    simp only [commit]
    rw [hsnaps]
    simp [commit]
  · intro j hj
    obtain ⟨s, hs1, hs2⟩ := hcomp j (Nat.zero_le j) (by omega)
    refine ⟨s, ?_, hs2⟩
    show s ∈ (commit { st1 with execution := { st1.execution with
      status := ExecutionStatus.completed, output_data := v,
      end_time := some st1.clock } }).snapshots
    simp only [commit]
    rw [hsnaps]
    simp only [commit, List.mem_append]
    left; right; exact hs1

/-- Failure-side characterization of `execute_workflow`: when the pure
skeleton fails with exception `e` at step `j`, the run swallows the
exception and the row ends `failed` with
`error_data = {"error": str(e), "step": j}` and an `end_time`; every log row
and every snapshotted `current_step` stays at or before the failing index
(no later step left a trace), snapshots are `pending` or `failed` only, the
first snapshot is the fresh `pending` row, and every index up to `j` got its
own snapshot. -/
theorem executeWorkflow_err (http : HttpRequest → HttpResponse) (wf : Workflow)
    (input : List (String × JValue)) (tid : Nat) (e : PyErr) (j : Nat)
    (hpure : runStepsPure http wf.steps 0 (initCtx input) = .error (e, j)) :
    (executeWorkflow http wf input tid).execution.status = .failed ∧
    (executeWorkflow http wf input tid).execution.error_data =
      some ⟨pyStrErr e, some j⟩ ∧
    (executeWorkflow http wf input tid).execution.end_time.isSome = true ∧
    j < wf.steps.length ∧
    (∀ l ∈ (executeWorkflow http wf input tid).logs, l.step ≤ j) ∧
    (∀ s ∈ (executeWorkflow http wf input tid).snapshots,
      ∀ c, s.current_step = some c → c ≤ j) ∧
    (∀ s ∈ (executeWorkflow http wf input tid).snapshots,
      s.status = .pending ∨ s.status = .failed) ∧
    (∃ tl, (executeWorkflow http wf input tid).snapshots =
      initialExecution wf input tid :: tl) ∧
    (∀ j', j' ≤ j →
      ∃ s ∈ (executeWorkflow http wf input tid).snapshots, s.current_step = some j') := by
  simp only [executeWorkflow]
  rcases hexec : execSteps http wf wf.steps 0 (initCtx input)
      (commit {
        execution := initialExecution wf input tid,
        logs := [], snapshots := [], clock := 0 }) with ⟨r, st1⟩
  obtain ⟨L, S, hshape, hlogs, hsnaps, hSfact, hmatch⟩ :=
    execSteps_run http wf wf.steps 0 (initCtx input) _ r st1 hexec
  rw [hpure] at hmatch
  obtain ⟨hr, hij, hjlt, hL, hS, hcomp, hcs⟩ := hmatch
  subst hr
  refine ⟨rfl, ?_, rfl, by omega, ?_, ?_, ?_, ?_, ?_⟩
  · show some (ErrorData.mk (pyStrErr e) st1.execution.current_step) = _
    rw [hcs]
  · intro l hl
    simp only [commit, logStep] at hl
    rw [hlogs] at hl
    simp only [commit, List.nil_append, List.mem_append, List.mem_singleton] at hl
    rcases hl with hl | hl
    · exact (hL l hl).2
    · subst hl
      show st1.execution.current_step.getD 0 ≤ j
      rw [hcs]
      simp
  · intro s hs
    simp only [commit, logStep] at hs
    rw [hsnaps] at hs
    simp only [commit, List.nil_append, List.mem_append, List.mem_singleton,
      List.mem_cons, List.not_mem_nil, or_false] at hs
    intro c hc
    rcases hs with ((hs | hs) | hs) | hs
    · subst hs
      simp only [initialExecution] at hc
      exact absurd hc (by simp)
    · obtain ⟨c', _, hc2⟩ := hSfact s hs
      have := hS s hs c hc
      exact this
    · subst hs
      have : st1.execution.current_step = some c := hc
      rw [hcs] at this
      simp only [Option.some.injEq] at this
      omega
    · subst hs
      have : st1.execution.current_step = some c := hc
      rw [hcs] at this
      simp only [Option.some.injEq] at this
      omega
  · intro s hs
    simp only [commit, logStep] at hs
    rw [hsnaps] at hs
    simp only [commit, List.nil_append, List.mem_append, List.mem_singleton,
      List.mem_cons, List.not_mem_nil, or_false] at hs
    rcases hs with ((hs | hs) | hs) | hs
    · subst hs; left; exact rfl
    · obtain ⟨c', _, hc2⟩ := hSfact s hs
      subst hc2; left; exact rfl
    · subst hs; right; exact rfl
    · subst hs; right; exact rfl
  · refine ⟨S ++ [{ st1.execution with
      status := ExecutionStatus.failed,
      error_data := some ⟨pyStrErr e, st1.execution.current_step⟩,
      end_time := some st1.clock }, { st1.execution with
      status := ExecutionStatus.failed,
      error_data := some ⟨pyStrErr e, st1.execution.current_step⟩,
      end_time := some st1.clock }], ?_⟩
    show (commit (logStep { st1 with execution := { st1.execution with
      status := ExecutionStatus.failed,
      error_data := some ⟨pyStrErr e, st1.execution.current_step⟩,
      end_time := some st1.clock } } _ _ _ _ _)).snapshots = _
    simp only [commit, logStep]
    rw [hsnaps]
    simp [commit]
  · intro j' hj'
    obtain ⟨s, hs1, hs2⟩ := hcomp j' (Nat.zero_le j') hj'
    refine ⟨s, ?_, hs2⟩
    show s ∈ (commit (logStep { st1 with execution := { st1.execution with
      status := ExecutionStatus.failed,
      error_data := some ⟨pyStrErr e, st1.execution.current_step⟩,
      end_time := some st1.clock } } _ _ _ _ _)).snapshots
    simp only [commit, logStep]
    rw [hsnaps]
    simp only [commit, List.mem_append]
    left; left; right; exact hs1

/-- Running a concatenation of step lists is running the first list and, on
success, the second from the accumulated `vars` and shifted index. -/
theorem runStepsPure_append (http : HttpRequest → HttpResponse) (xs ys : List JValue) :
    ∀ (i : Nat) (ctx : Ctx),
    runStepsPure http (xs ++ ys) i ctx =
      match runStepsPure http xs i ctx with
      | .ok v => runStepsPure http ys (i + xs.length) { ctx with vars := v }
      | .error p => .error p := by
  induction xs with
  | nil =>
    intro i ctx
    rfl
  | cons a as ih =>
    intro i ctx
    cases hp : parseStepType a with
    | error e =>
      simp only [List.cons_append, runStepsPure, hp]
    | ok ty =>
      cases hd : dispatchStep http ty a ctx with
      | error e =>
        simp only [List.cons_append, runStepsPure, hp, hd]
      | ok pr =>
        obtain ⟨r, sl⟩ := pr
        simp only [List.cons_append, runStepsPure, hp, hd, List.length_cons, List.append_eq]
        rw [ih]
        rw [show i + 1 + as.length = i + (as.length + 1) from by omega]

/-- Claim C1: for every workflow, input payload and HTTP oracle,
`execute_workflow` never raises past its own boundary — it is a total
function on the embedding — and the returned execution reports the outcome:
on success of the step loop, `status = completed` with `end_time` set; when
any step raises exception `e` at index `j`, the exception is swallowed and
the execution carries `status = failed`,
`error_data = {"error": str(e), "step": j}` and an `end_time`, so callers
learn of failure only from `status`/`error_data`. -/
theorem claim_C1_never_raises (http : HttpRequest → HttpResponse) (wf : Workflow)
    (input : List (String × JValue)) (tid : Nat) :
    match runStepsPure http wf.steps 0 (initCtx input) with
    | .ok v =>
        (executeWorkflow http wf input tid).execution.status = .completed ∧
        (executeWorkflow http wf input tid).execution.output_data = v ∧
        (executeWorkflow http wf input tid).execution.end_time.isSome = true
    | .error (e, j) =>
        (executeWorkflow http wf input tid).execution.status = .failed ∧
        (executeWorkflow http wf input tid).execution.error_data =
          some ⟨pyStrErr e, some j⟩ ∧
        (executeWorkflow http wf input tid).execution.end_time.isSome = true := by
  rcases hq : runStepsPure http wf.steps 0 (initCtx input) with ⟨e, j⟩ | v
  · obtain ⟨h1, h2, h3, _⟩ := executeWorkflow_err http wf input tid e j hq
    exact ⟨h1, h2, h3⟩
  · obtain ⟨h1, h2, _, h4, _⟩ := executeWorkflow_ok http wf input tid v hq
    exact ⟨h1, h2, h4⟩

/-- Claim C7: a workflow with an empty steps list completes with
`output_data = {}`. -/
theorem claim_C7_empty_workflow (http : HttpRequest → HttpResponse) (wf : Workflow)
    (input : List (String × JValue)) (tid : Nat) (hempty : wf.steps = []) :
    (executeWorkflow http wf input tid).execution.status = .completed ∧
    (executeWorkflow http wf input tid).execution.output_data = [] := by
  have hpure : runStepsPure http wf.steps 0 (initCtx input) = .ok [] := by
    rw [hempty]; rfl
  obtain ⟨h1, h2, _⟩ := executeWorkflow_ok http wf input tid [] hpure
  exact ⟨h1, h2⟩

/-- Witness for claim C7 at a concrete empty workflow. -/
theorem claim_C7_empty_workflow_witness :
    (mkWorkflow []).steps = [] ∧
    (executeWorkflow http500 (mkWorkflow []) [] 7).execution.status = .completed ∧
    (executeWorkflow http500 (mkWorkflow []) [] 7).execution.output_data = [] :=
  ⟨rfl, claim_C7_empty_workflow http500 (mkWorkflow []) [] 7 rfl⟩

/-- Claim C2 (amended): every execution is created and persisted in
`pending` (the first snapshot is the fresh row), stays `pending` in every
snapshot taken while steps are processed — the interpreter never assigns
`running`, `cancelled` or `suspended` to any persisted state — and
terminates in exactly one of `completed` or `failed` with `end_time` set,
after persisting one snapshot per processed step index. -/
theorem claim_C2_amended_lifecycle (http : HttpRequest → HttpResponse) (wf : Workflow)
    (input : List (String × JValue)) (tid : Nat) :
    (∃ tl, (executeWorkflow http wf input tid).snapshots =
      initialExecution wf input tid :: tl) ∧
    (initialExecution wf input tid).status = .pending ∧
    (initialExecution wf input tid).start_time.isSome = true ∧
    (∀ s ∈ (executeWorkflow http wf input tid).snapshots,
      s.status ≠ .running ∧ s.status ≠ .cancelled ∧ s.status ≠ .suspended) ∧
    ((executeWorkflow http wf input tid).execution.status = .completed ∨
      (executeWorkflow http wf input tid).execution.status = .failed) ∧
    (executeWorkflow http wf input tid).execution.end_time.isSome = true ∧
    (match runStepsPure http wf.steps 0 (initCtx input) with
     | .ok _ => ∀ j, j < wf.steps.length →
        ∃ s ∈ (executeWorkflow http wf input tid).snapshots, s.current_step = some j
     | .error (_, k) => ∀ j, j ≤ k →
        ∃ s ∈ (executeWorkflow http wf input tid).snapshots, s.current_step = some j) := by
  rcases hq : runStepsPure http wf.steps 0 (initCtx input) with ⟨e, k⟩ | v
  · obtain ⟨h1, _, h3, _, _, h6, h7, h8, h9⟩ :=
      executeWorkflow_err http wf input tid e k hq
    refine ⟨h8, rfl, rfl, ?_, Or.inr h1, h3, h9⟩
    intro s hs
    rcases h7 s hs with h | h <;> rw [h] <;> exact ⟨by simp, by simp, by simp⟩
  · obtain ⟨h1, _, _, h4, h5, h6, h7⟩ := executeWorkflow_ok http wf input tid v hq
    refine ⟨h6, rfl, rfl, ?_, Or.inl h1, h4, h7⟩
    intro s hs
    rcases h5 s hs with h | h <;> rw [h] <;> exact ⟨by simp, by simp, by simp⟩

/-- Counterexample to claim C2 as stated: the claim requires the execution
to transition through `running` while steps are processed, but in this
concrete one-step run — which processes its step and completes — the status
of every persisted snapshot is `pending` until the terminal `completed`
write; `running` is never assigned.  (`WorkflowExecutionService` never
writes `ExecutionStatus.RUNNING`; the member exists only in the enum.) -/
theorem claim_C2_counterexample :
    (executeWorkflow http500 (mkWorkflow [emailStepSent]) [] 7).snapshots.map
      (fun s => s.status) =
      [.pending, .pending, .pending, .completed] ∧
    ExecutionStatus.running ∉
      (executeWorkflow http500 (mkWorkflow [emailStepSent]) [] 7).snapshots.map
        (fun s => s.status) ∧
    (executeWorkflow http500 (mkWorkflow [emailStepSent]) [] 7).execution.status =
      .completed := by
  refine ⟨rfl, ?_, rfl⟩
  decide

/-- When the prefix of steps succeeds and the next step's dispatch raises,
the whole pure run fails with that exception at the step's index. -/
theorem runStepsPure_failsAt (http : HttpRequest → HttpResponse)
    (xs : List JValue) (step : JValue) (ys : List JValue)
    (input vs : List (String × JValue)) (ty : StepType) (e : PyErr)
    (hpre : runStepsPure http xs 0 (initCtx input) = .ok vs)
    (hty : parseStepType step = .ok ty)
    (hdisp : dispatchStep http ty step { initCtx input with vars := vs } = .error e) :
    runStepsPure http (xs ++ step :: ys) 0 (initCtx input) = .error (e, xs.length) := by
  rw [runStepsPure_append, hpre]
  simp only [runStepsPure, hty, hdisp, Nat.zero_add]

/-- Claim C10: the step-type enum has a sixth member `subprocess` beyond the
five handled kinds; its tag parses, but the dispatch chain reaches no
handler and raises `ValueError("Unsupported step type: ...")`, so once the
interpreter reaches such a step (all earlier steps having succeeded) the run
ends `failed` at that step's index with that message in `error_data`. -/
theorem claim_C10_subprocess_unsupported :
    (∀ step, jGet step "type" = .ok (.str "subprocess") →
      parseStepType step = .ok .subprocess) ∧
    (∀ (http : HttpRequest → HttpResponse) (step : JValue) (ctx : Ctx),
      dispatchStep http .subprocess step ctx =
        .error (.valueError ("Unsupported step type: " ++ stepTypeValue .subprocess))) ∧
    (∀ (http : HttpRequest → HttpResponse) (wf : Workflow)
       (input vs : List (String × JValue)) (tid : Nat)
       (xs : List JValue) (step : JValue) (ys : List JValue),
      wf.steps = xs ++ step :: ys →
      runStepsPure http xs 0 (initCtx input) = .ok vs →
      parseStepType step = .ok .subprocess →
      (executeWorkflow http wf input tid).execution.status = .failed ∧
      (executeWorkflow http wf input tid).execution.error_data =
        some ⟨"Unsupported step type: subprocess", some xs.length⟩) := by
  refine ⟨?_, ?_, ?_⟩
  · intro step hstep
    simp only [parseStepType, hstep]
    rfl
  · intro http step ctx
    rfl
  · intro http wf input vs tid xs step ys hsteps hpre hty
    have hpure : runStepsPure http wf.steps 0 (initCtx input) =
        .error (.valueError ("Unsupported step type: " ++ stepTypeValue .subprocess),
          xs.length) := by
      rw [hsteps]
      exact runStepsPure_failsAt http xs step ys input vs .subprocess _ hpre hty rfl
    obtain ⟨h1, h2, _⟩ := executeWorkflow_err http wf input tid _ _ hpure
    exact ⟨h1, h2⟩

/-- Witness for claim C10 at a concrete one-step subprocess workflow. -/
theorem claim_C10_subprocess_unsupported_witness :
    (jGet subprocessStep "type" = .ok (.str "subprocess") ∧
      parseStepType subprocessStep = .ok .subprocess) ∧
    ((executeWorkflow http500 (mkWorkflow [subprocessStep]) [] 7).execution.status =
      .failed ∧
     (executeWorkflow http500 (mkWorkflow [subprocessStep]) [] 7).execution.error_data =
      some ⟨"Unsupported step type: subprocess", some 0⟩) :=
  ⟨⟨rfl, claim_C10_subprocess_unsupported.1 subprocessStep rfl⟩,
    claim_C10_subprocess_unsupported.2.2 http500 (mkWorkflow [subprocessStep]) [] [] 7
      [] subprocessStep [] rfl rfl rfl⟩

/-- Claim C6: a `delay` step whose `seconds` is negative or not numeric (in
the source's `isinstance(seconds, (int, float))` sense, under which Python
booleans count as ints) raises
`ValueError("Delay must be a non-negative number")`; once the interpreter
reaches it (all earlier steps having succeeded) the run ends `failed` at
that step's index and no later step leaves any trace: every log row and
every snapshotted `current_step` stays at or before that index. -/
theorem claim_C6_negative_delay (http : HttpRequest → HttpResponse) (wf : Workflow)
    (input vs : List (String × JValue)) (tid : Nat)
    (xs : List JValue) (step : JValue) (ys : List JValue) (s : JValue)
    (hsteps : wf.steps = xs ++ step :: ys)
    (hpre : runStepsPure http xs 0 (initCtx input) = .ok vs)
    (hty : parseStepType step = .ok .delay)
    (hsec : jGet step "seconds" = .ok s)
    (hbad : isNumericPy s = false ∨ numValPy s < 0) :
    (executeWorkflow http wf input tid).execution.status = .failed ∧
    (executeWorkflow http wf input tid).execution.error_data =
      some ⟨"Delay must be a non-negative number", some xs.length⟩ ∧
    (∀ l ∈ (executeWorkflow http wf input tid).logs, l.step ≤ xs.length) ∧
    (∀ sn ∈ (executeWorkflow http wf input tid).snapshots,
      ∀ c, sn.current_step = some c → c ≤ xs.length) := by
  have hdisp : dispatchStep http .delay step { initCtx input with vars := vs } =
      .error (.valueError "Delay must be a non-negative number") := by
    simp only [dispatchStep, execDelay, hsec]
    rcases hbad with h | h
    · rw [h]
      simp
    · have : (!isNumericPy s || decide (numValPy s < 0)) = true := by
        simp [h]
      rw [if_pos this]
  have hpure : runStepsPure http wf.steps 0 (initCtx input) =
      .error (.valueError "Delay must be a non-negative number", xs.length) := by
    rw [hsteps]
    exact runStepsPure_failsAt http xs step ys input vs .delay _ hpre hty hdisp
  obtain ⟨h1, h2, _, _, h5, h6, _⟩ := executeWorkflow_err http wf input tid _ _ hpure
  exact ⟨h1, h2, h5, h6⟩

/-- Witness for claim C6 at a concrete run `[email, delay(-5), email]`:
the run fails at index 1 and the third step leaves no trace. -/
theorem claim_C6_negative_delay_witness :
    (runStepsPure http500 [emailStepSent] 0 (initCtx []) =
      .ok [("sent", JValue.bool true)] ∧
     parseStepType badDelayStep = .ok .delay ∧
     jGet badDelayStep "seconds" = .ok (.num (-5)) ∧
     numValPy (.num (-5)) < 0) ∧
    ((executeWorkflow http500
        (mkWorkflow [emailStepSent, badDelayStep, emailStepSent]) [] 7).execution.status =
      .failed ∧
     (executeWorkflow http500
        (mkWorkflow [emailStepSent, badDelayStep, emailStepSent]) [] 7).execution.error_data =
      some ⟨"Delay must be a non-negative number", some 1⟩ ∧
     (∀ l ∈ (executeWorkflow http500
        (mkWorkflow [emailStepSent, badDelayStep, emailStepSent]) [] 7).logs,
        l.step ≤ 1) ∧
     (∀ sn ∈ (executeWorkflow http500
        (mkWorkflow [emailStepSent, badDelayStep, emailStepSent]) [] 7).snapshots,
        ∀ c, sn.current_step = some c → c ≤ 1)) :=
  ⟨⟨rfl, rfl, rfl, by decide⟩,
    claim_C6_negative_delay http500
      (mkWorkflow [emailStepSent, badDelayStep, emailStepSent]) []
      [("sent", JValue.bool true)] 7 [emailStepSent] badDelayStep [emailStepSent]
      (.num (-5)) rfl rfl rfl rfl (Or.inr (by decide))⟩

/-- When the very first step's dispatch raises, the run persists exactly two
log rows: the step-level failure log written in `_execute_steps` before the
re-raise, and the run-level error log written in `execute_workflow`'s
exception handler. -/
theorem executeWorkflow_two_logs_on_first_fail (http : HttpRequest → HttpResponse)
    (wf : Workflow) (input : List (String × JValue)) (tid : Nat)
    (step : JValue) (rest : List JValue) (ty : StepType) (e : PyErr)
    (hsteps : wf.steps = step :: rest)
    (hty : parseStepType step = .ok ty)
    (hd : dispatchStep http ty step (initCtx input) = .error e) :
    (executeWorkflow http wf input tid).logs.length = 2 := by
  simp only [executeWorkflow]
  rw [hsteps]
  simp only [execSteps, commit, logStep, hty, hd]
  simp

/-- Claim C3 (amended): for the two-step workflow
`[http_request (non-2xx), email]`, the execution ends `failed` with
`error_data.step = 0`, the `email` step never runs (every log row and every
snapshotted `current_step` stays at index 0), and exactly TWO `WorkflowLog`
rows are persisted for the run: the step-level failure log plus the
run-level error log from `execute_workflow`'s handler. -/
theorem claim_C3_amended_http_failure (http : HttpRequest → HttpResponse)
    (wf : Workflow) (u : String) (input : List (String × JValue)) (tid : Nat)
    (hsteps : wf.steps = [httpGetStep u, emailStepPlain])
    (hfail : ∀ req, is2xx (http req) = false) :
    (executeWorkflow http wf input tid).execution.status = .failed ∧
    (∃ msg, (executeWorkflow http wf input tid).execution.error_data =
      some ⟨msg, some 0⟩) ∧
    (executeWorkflow http wf input tid).logs.length = 2 ∧
    (∀ l ∈ (executeWorkflow http wf input tid).logs, l.step = 0) ∧
    (∀ sn ∈ (executeWorkflow http wf input tid).snapshots,
      sn.current_step = none ∨ sn.current_step = some 0) := by
  have hb : buildHttpRequest (httpGetStep u) (initCtx input) =
      .ok ⟨.str "GET", interpolate u (initCtx input), [], none, .num 30⟩ := rfl
  have hd1 : dispatchStep http .http_request (httpGetStep u) (initCtx input) =
      .error (.httpStatusError
        (http ⟨.str "GET", interpolate u (initCtx input), [], none, .num 30⟩).status) := by
    simp only [dispatchStep, execHttpRequest, hb, hfail]
    simp
  have hp1 : parseStepType (httpGetStep u) = .ok .http_request := rfl
  have hpure : runStepsPure http wf.steps 0 (initCtx input) =
      .error (.httpStatusError
        (http ⟨.str "GET", interpolate u (initCtx input), [], none, .num 30⟩).status, 0) := by
    rw [hsteps]
    simp only [runStepsPure, hp1, hd1]
  obtain ⟨h1, h2, _, _, h5, h6, _⟩ := executeWorkflow_err http wf input tid _ _ hpure
  refine ⟨h1, ⟨_, h2⟩, ?_, ?_, ?_⟩
  · exact executeWorkflow_two_logs_on_first_fail http wf input tid _ _ .http_request _
      hsteps rfl hd1
  · intro l hl
    have := h5 l hl
    omega
  · intro sn hsn
    cases hc : sn.current_step with
    | none => exact Or.inl rfl
    | some c =>
      have := h6 sn hsn c hc
      right
      simp only [Option.some.injEq]
      omega

/-- Counterexample to claim C3 as stated: in this concrete run of
`[http_request (500), email]` the execution does fail at step 0 and the
email step never runs, but TWO `WorkflowLog` rows are persisted — the
step-level failure log and the run-level error log — not exactly one as the
claim requires. -/
theorem claim_C3_counterexample :
    (executeWorkflow http500
      (mkWorkflow [httpGetStep "http://api/x", emailStepPlain]) [] 7).execution.status =
      .failed ∧
    (executeWorkflow http500
      (mkWorkflow [httpGetStep "http://api/x", emailStepPlain]) [] 7).execution.error_data =
      some ⟨"HTTP status error 500", some 0⟩ ∧
    (executeWorkflow http500
      (mkWorkflow [httpGetStep "http://api/x", emailStepPlain]) [] 7).logs.length = 2 ∧
    ¬ (executeWorkflow http500
      (mkWorkflow [httpGetStep "http://api/x", emailStepPlain]) [] 7).logs.length = 1 := by
  refine ⟨rfl, rfl, rfl, ?_⟩
  decide

/-- Witness for claim C3 (amended) at a concrete oracle and url. -/
theorem claim_C3_amended_http_failure_witness :
    ((mkWorkflow [httpGetStep "http://api/x", emailStepPlain]).steps =
      [httpGetStep "http://api/x", emailStepPlain] ∧
     (∀ req, is2xx (http500 req) = false)) ∧
    ((executeWorkflow http500
        (mkWorkflow [httpGetStep "http://api/x", emailStepPlain]) [] 7).execution.status =
        .failed ∧
     (∃ msg, (executeWorkflow http500
        (mkWorkflow [httpGetStep "http://api/x", emailStepPlain]) [] 7).execution.error_data =
        some ⟨msg, some 0⟩) ∧
     (executeWorkflow http500
        (mkWorkflow [httpGetStep "http://api/x", emailStepPlain]) [] 7).logs.length = 2 ∧
     (∀ l ∈ (executeWorkflow http500
        (mkWorkflow [httpGetStep "http://api/x", emailStepPlain]) [] 7).logs, l.step = 0) ∧
     (∀ sn ∈ (executeWorkflow http500
        (mkWorkflow [httpGetStep "http://api/x", emailStepPlain]) [] 7).snapshots,
        sn.current_step = none ∨ sn.current_step = some 0)) :=
  ⟨⟨rfl, fun _ => rfl⟩,
    claim_C3_amended_http_failure http500
      (mkWorkflow [httpGetStep "http://api/x", emailStepPlain]) "http://api/x" [] 7
      rfl (fun _ => rfl)⟩

/-- Writing a key into the vars dict makes it readable back. -/
theorem lookup_updateAssoc_self (l : List (String × JValue)) (k : String) (v : JValue) :
    (updateAssoc l k v).lookup k = some v := by
  induction l with
  | nil => simp [updateAssoc]
  | cons kv rest ih =>
    obtain ⟨k', v'⟩ := kv
    by_cases h : k' = k
    · subst h
      simp [updateAssoc]
    · have h2 : (k' == k) = false := by simpa using h
      have h3 : (k == k') = false := by simpa using Ne.symm h
      simp [updateAssoc, h2, List.lookup, h3, ih]

/-- Writing one key leaves lookups of a different key unchanged. -/
theorem lookup_updateAssoc_ne (l : List (String × JValue)) (k k' : String) (v : JValue)
    (h : k' ≠ k) : (updateAssoc l k' v).lookup k = l.lookup k := by
  induction l with
  | nil =>
    have h3 : (k == k') = false := by simpa using Ne.symm h
    simp [updateAssoc, List.lookup, h3]
  | cons kv rest ih =>
    obtain ⟨k0, v0⟩ := kv
    by_cases h0 : k0 = k'
    · subst h0
      have h3 : (k == k0) = false := by simpa using Ne.symm h
      simp [updateAssoc, List.lookup, h3]
    · have h2 : (k0 == k') = false := by simpa using h0
      simp only [updateAssoc, h2, Bool.false_eq_true, if_false]
      simp only [List.lookup]
      cases h4 : (k == k0) with
      | true => rfl
      | false => exact ih

/-- Steps that never write `k` leave its entry in `vars` unchanged through
the rest of the run. -/
theorem runStepsPure_preserves (http : HttpRequest → HttpResponse)
    (ys : List JValue) : ∀ (i : Nat) (ctx : Ctx) (out : List (String × JValue))
    (k : String),
    (∀ s ∈ ys, writtenKey s ≠ some k) →
    runStepsPure http ys i ctx = .ok out →
    out.lookup k = ctx.vars.lookup k := by
  induction ys with
  | nil =>
    intro i ctx out k _ hrun
    simp only [runStepsPure] at hrun
    injection hrun with h
    rw [← h]
  | cons s rest ih =>
    intro i ctx out k hno hrun
    cases hp : parseStepType s with
    | error e =>
      simp only [runStepsPure, hp] at hrun
      exact Except.noConfusion hrun
    | ok ty =>
      cases hd : dispatchStep http ty s ctx with
      | error e =>
        simp only [runStepsPure, hp, hd] at hrun
        exact Except.noConfusion hrun
      | ok pr =>
        obtain ⟨r, sl⟩ := pr
        simp only [runStepsPure, hp, hd] at hrun
        have hkey := hno s (by simp)
        have hrest : ∀ x ∈ rest, writtenKey x ≠ some k :=
          fun x hx => hno x (by simp [hx])
        have := ih (i + 1) { ctx with vars := applyOutputKey s ctx.vars r } out k hrest hrun
        rw [this]
        show (applyOutputKey s ctx.vars r).lookup k = ctx.vars.lookup k
        unfold applyOutputKey
        cases hw : writtenKey s with
        | none => rfl
        | some k' =>
          have : k' ≠ k := by
            intro hkk
            subst hkk
            exact hkey hw
          exact lookup_updateAssoc_ne ctx.vars k k' r this

/-- Claim C4 (amended): for a step declaring `output_key = k`, after the
step executes successfully the context's `vars` at `k` equals the step's
return value; and provided no LATER step declares the same `output_key`
(which would overwrite it), a completed run carries that value under `k` in
the final `output_data`. -/
theorem claim_C4_amended_output_key (http : HttpRequest → HttpResponse)
    (input vs finalVars : List (String × JValue)) (k : String)
    (xs : List JValue) (step : JValue) (ys : List JValue)
    (ty : StepType) (r : JValue) (slept : Nat)
    (hpre : runStepsPure http xs 0 (initCtx input) = .ok vs)
    (hty : parseStepType step = .ok ty)
    (hdisp : dispatchStep http ty step { initCtx input with vars := vs } = .ok (r, slept))
    (hkey : writtenKey step = some k)
    (hnolater : ∀ s ∈ ys, writtenKey s ≠ some k)
    (hfull : runStepsPure http (xs ++ step :: ys) 0 (initCtx input) = .ok finalVars) :
    (applyOutputKey step vs r).lookup k = some r ∧
    finalVars.lookup k = some r ∧
    (∀ (wf : Workflow) (tid : Nat), wf.steps = xs ++ step :: ys →
      (executeWorkflow http wf input tid).execution.output_data.lookup k = some r) := by
  have hctx : (applyOutputKey step vs r).lookup k = some r := by
    unfold applyOutputKey
    rw [hkey]
    exact lookup_updateAssoc_self vs k r
  rw [runStepsPure_append, hpre] at hfull
  simp only [runStepsPure, hty, hdisp] at hfull
  have hfin : finalVars.lookup k = some r := by
    have hpres := runStepsPure_preserves http ys (0 + xs.length + 1)
      { initCtx input with vars := applyOutputKey step vs r } finalVars k hnolater hfull
    rw [hpres]
    exact hctx
  refine ⟨hctx, hfin, ?_⟩
  intro wf tid hsteps
  have hpure : runStepsPure http wf.steps 0 (initCtx input) = .ok finalVars := by
    rw [hsteps, runStepsPure_append, hpre]
    simp only [runStepsPure, hty, hdisp]
    exact hfull
  obtain ⟨_, h2, _⟩ := executeWorkflow_ok http wf input tid finalVars hpure
  rw [h2]
  exact hfin

/-- Counterexample to claim C4 as stated: in
`[email (output_key sent), delay 0 (output_key sent)]` the first step
returns `True` and stores it, but the later step reuses the same
`output_key`, so the completed run's final `output_data` holds `None` — the
first step's value is NOT present in the final output. -/
theorem claim_C4_counterexample :
    (executeWorkflow http500
      (mkWorkflow [emailStepSent, delayZeroSent]) [] 7).execution.status = .completed ∧
    dispatchStep http500 .email emailStepSent (initCtx []) = .ok (.bool true, 1) ∧
    writtenKey emailStepSent = some "sent" ∧
    (executeWorkflow http500
      (mkWorkflow [emailStepSent, delayZeroSent]) [] 7).execution.output_data.lookup
        "sent" = some JValue.null ∧
    ¬ (executeWorkflow http500
      (mkWorkflow [emailStepSent, delayZeroSent]) [] 7).execution.output_data.lookup
        "sent" = some (JValue.bool true) := by
  refine ⟨rfl, rfl, rfl, rfl, ?_⟩
  intro h
  have h0 : (executeWorkflow http500
      (mkWorkflow [emailStepSent, delayZeroSent]) [] 7).execution.output_data.lookup
        "sent" = some JValue.null := rfl
  rw [h0] at h
  injection h with h1
  exact JValue.noConfusion h1

/-- Witness for claim C4 (amended) at a concrete one-step run. -/
theorem claim_C4_amended_output_key_witness :
    (writtenKey emailStepSent = some "sent" ∧
     runStepsPure http500 ([] ++ emailStepSent :: []) 0 (initCtx []) =
       .ok [("sent", JValue.bool true)]) ∧
    ((applyOutputKey emailStepSent [] (JValue.bool true)).lookup "sent" =
       some (JValue.bool true) ∧
     ([("sent", JValue.bool true)] : List (String × JValue)).lookup "sent" =
       some (JValue.bool true) ∧
     (∀ (wf : Workflow) (tid : Nat), wf.steps = [] ++ emailStepSent :: [] →
       (executeWorkflow http500 wf [] tid).execution.output_data.lookup "sent" =
         some (JValue.bool true))) :=
  ⟨⟨rfl, rfl⟩,
    claim_C4_amended_output_key http500 [] [] [("sent", JValue.bool true)] "sent"
      [] emailStepSent [] .email (JValue.bool true) 1 rfl rfl rfl rfl (by simp) rfl⟩

/-- `_get_value` on a literal operand never consults the context. -/
theorem getValue_literal_const (valueDef : JValue) (ctx₁ ctx₂ : Ctx)
    (hlit : jGet valueDef "type" = .ok (.str "literal")) :
    getValue valueDef ctx₁ = getValue valueDef ctx₂ := by
  unfold getValue
  rw [hlit]
  exact rfl

/-- Claim C8: a `condition` step whose two operands are both literals
evaluates independently of the context — any two runs with arbitrary
different `input`/`vars` return the same value — and the concrete example
`gt (literal 5) (literal 3)` evaluates to `True` in every context. -/
theorem claim_C8_literal_condition_const :
    (∀ (step cond l r : JValue) (ctx₁ ctx₂ : Ctx),
      jGet step "condition" = .ok cond →
      jGet cond "left" = .ok l →
      jGet cond "right" = .ok r →
      jGet l "type" = .ok (.str "literal") →
      jGet r "type" = .ok (.str "literal") →
      execCondition step ctx₁ = execCondition step ctx₂) ∧
    (∀ ctx : Ctx,
      execCondition (.obj [("condition", .obj [("type", .str "comparison"),
        ("operator", .str "gt"),
        ("left", .obj [("type", .str "literal"), ("value", .num 5)]),
        ("right", .obj [("type", .str "literal"), ("value", .num 3)])])]) ctx =
        .ok (.bool true)) := by
  constructor
  · intro step cond l r ctx₁ ctx₂ hc hl hr hlt hrt
    unfold execCondition
    simp only [hc, hl, hr]
    rw [getValue_literal_const l ctx₁ ctx₂ hlt, getValue_literal_const r ctx₁ ctx₂ hrt]
  · intro ctx
    rfl

/-- Witness for claim C8: the literal `gt 5 3` condition returns the same
`True` under two different contexts. -/
theorem claim_C8_literal_condition_const_witness :
    (jGet gtLiteralStep "condition" = .ok (.obj [("type", .str "comparison"),
      ("operator", .str "gt"),
      ("left", .obj [("type", .str "literal"), ("value", .num 5)]),
      ("right", .obj [("type", .str "literal"), ("value", .num 3)])]) ∧
     execCondition gtLiteralStep ⟨[("score", .num 85)], [], []⟩ =
       execCondition gtLiteralStep ⟨[("other", .str "z")], [], [("v", .null)]⟩) ∧
    execCondition gtLiteralStep ⟨[("score", .num 85)], [], []⟩ = .ok (.bool true) :=
  ⟨⟨rfl,
    claim_C8_literal_condition_const.1 gtLiteralStep _ _ _
      ⟨[("score", .num 85)], [], []⟩ ⟨[("other", .str "z")], [], [("v", .null)]⟩
      rfl rfl rfl rfl rfl⟩,
    claim_C8_literal_condition_const.2 ⟨[("score", .num 85)], [], []⟩⟩

/-- Flipping `is_latest` off on the unique matching row (which was latest)
and appending a fresh latest row keeps the number of latest rows constant. -/
theorem countLatest_flip (wid tid : Nat) :
    ∀ (store : List Workflow) (w : Workflow),
    store.filter (matchesKey wid tid) = [w] →
    w.is_latest = true →
    countLatest (store.map (fun x =>
      if matchesKey wid tid x then { x with is_latest := false } else x)) + 1 =
      countLatest store := by
  intro store
  induction store with
  | nil =>
    intro w hf _
    simp at hf
  | cons x rest ih =>
    intro w hf hl
    cases hx : matchesKey wid tid x with
    | true =>
      rw [List.filter_cons_of_pos (by rw [hx])] at hf
      injection hf with h1 h2
      subst h1
      have hrest : ∀ y ∈ rest, matchesKey wid tid y = false := by
        intro y hy
        by_contra hby
        have hmem : y ∈ rest.filter (matchesKey wid tid) := by
          rw [List.mem_filter]
          exact ⟨hy, by simpa using hby⟩
        rw [h2] at hmem
        simp at hmem
      have hmap : rest.map (fun y =>
          if matchesKey wid tid y then { y with is_latest := false } else y) = rest := by
        calc rest.map (fun y =>
            if matchesKey wid tid y then { y with is_latest := false } else y)
            = rest.map id := by
              apply List.map_congr_left
              intro y hy
              rw [hrest y hy]
              exact rfl
          _ = rest := List.map_id rest
      rw [List.map_cons, hmap]
      have hfx : (if matchesKey wid tid x then { x with is_latest := false } else x) =
          { x with is_latest := false } := by
        rw [hx]
        exact rfl
      rw [hfx]
      simp [countLatest, List.filter_cons, hl]
    | false =>
      rw [List.filter_cons_of_neg (by simp [hx])] at hf
      have hih := ih w hf hl
      rw [List.map_cons]
      have hfx : (if matchesKey wid tid x then { x with is_latest := false } else x) = x := by
        rw [hx]
        exact rfl
      rw [hfx]
      cases hxl : x.is_latest with
      | true => simp [countLatest, List.filter_cons, hxl] at hih ⊢; omega
      | false => simp [countLatest, List.filter_cons, hxl] at hih ⊢; omega

/-- Claim C9: updating a workflow never mutates the stored definition in
place: `update_workflow` inserts one new row whose version is incremented by
one and whose `is_latest` defaults to true, flips `is_latest` to false on
the previous row (leaving all its other fields intact), leaves every other
row untouched, and does both writes in the same transaction (the one commit
produces the new store in a single step), so the number of latest versions
is preserved: with the previous row latest, exactly one of
{previous, new} remains latest afterwards. -/
theorem claim_C9_versioned_update (store : List Workflow) (wid tid : Nat)
    (data : WorkflowData) (newId : Nat) (w : Workflow)
    (hfind : store.filter (matchesKey wid tid) = [w])
    (hlatest : w.is_latest = true) :
    ∃ store' newRow,
      updateWorkflow store wid tid data newId = .ok (store', newRow) ∧
      newRow.version = w.version + 1 ∧ newRow.is_latest = true ∧
      newRow.tenant_id = tid ∧ newRow.name = data.name ∧
      newRow.steps = data.steps ∧
      { w with is_latest := false } ∈ store' ∧
      ({ w with is_latest := false }).is_latest = false ∧
      (∀ x ∈ store, matchesKey wid tid x = false → x ∈ store') ∧
      countLatest store' = countLatest store ∧
      store'.length = store.length + 1 := by
  have hwmem : w ∈ store ∧ matchesKey wid tid w = true := by
    have : w ∈ store.filter (matchesKey wid tid) := by
      rw [hfind]
      simp
    exact ⟨(List.mem_filter.mp this).1, (List.mem_filter.mp this).2⟩
  have hupd : updateWorkflow store wid tid data newId = .ok
      ((store.map (fun x =>
        if matchesKey wid tid x then { x with is_latest := false } else x))
        ++ [{ id := newId, tenant_id := tid, name := data.name,
              description := data.description, trigger_type := data.trigger_type,
              trigger_config := data.trigger_config, steps := data.steps,
              status := data.status, version := w.version + 1, is_latest := true }],
       { id := newId, tenant_id := tid, name := data.name,
         description := data.description, trigger_type := data.trigger_type,
         trigger_config := data.trigger_config, steps := data.steps,
         status := data.status, version := w.version + 1, is_latest := true }) := by
    unfold updateWorkflow
    rw [hfind]
  refine ⟨_, _, hupd, rfl, rfl, rfl, rfl, rfl, ?_, rfl, ?_, ?_, ?_⟩
  · apply List.mem_append_left
    apply List.mem_map.mpr
    exact ⟨w, hwmem.1, by simp [hwmem.2]⟩
  · intro x hx hfalse
    apply List.mem_append_left
    apply List.mem_map.mpr
    exact ⟨x, hx, by simp [hfalse]⟩
  · show countLatest (_ ++ [_]) = countLatest store
    unfold countLatest
    rw [List.filter_append]
    have := countLatest_flip wid tid store w hfind hlatest
    unfold countLatest at this
    simp only [List.filter_cons, List.filter_nil]
    simp only [List.length_append]
    simp
    omega
  · simp

/-- Witness for claim C9 on a one-row store. -/
theorem claim_C9_versioned_update_witness :
    (List.filter (matchesKey 1 7) [mkWorkflow []] = [mkWorkflow []] ∧
     (mkWorkflow []).is_latest = true) ∧
    (∃ store' newRow,
      updateWorkflow [mkWorkflow []] 1 7 updateDataW 2 = .ok (store', newRow) ∧
      newRow.version = (mkWorkflow []).version + 1 ∧ newRow.is_latest = true ∧
      newRow.tenant_id = 7 ∧ newRow.name = updateDataW.name ∧
      newRow.steps = updateDataW.steps ∧
      { mkWorkflow [] with is_latest := false } ∈ store' ∧
      ({ mkWorkflow [] with is_latest := false }).is_latest = false ∧
      (∀ x ∈ [mkWorkflow []], matchesKey 1 7 x = false → x ∈ store') ∧
      countLatest store' = countLatest [mkWorkflow []] ∧
      store'.length = [mkWorkflow []].length + 1) :=
  ⟨⟨rfl, rfl⟩,
    claim_C9_versioned_update [mkWorkflow []] 1 7 updateDataW 2 (mkWorkflow []) rfl rfl⟩

/-- `replaceF` ignores the exact fuel once it covers the input length. -/
theorem replaceF_congr (pat rep : List Char) :
    ∀ (f1 f2 : Nat) (s : List Char), s.length ≤ f1 → s.length ≤ f2 →
    replaceF pat rep f1 s = replaceF pat rep f2 s := by
  intro f1
  induction f1 with
  | zero =>
    intro f2 s h1 h2
    have hs : s = [] := List.length_eq_zero.mp (Nat.le_zero.mp h1)
    subst hs
    cases f2 <;> rfl
  | succ f ihf =>
    intro f2 s h1 h2
    cases s with
    | nil => cases f2 <;> rfl
    | cons c cs =>
      cases f2 with
      | zero => simp at h2
      | succ f2' =>
        simp only [replaceF]
        cases hm : (!pat.isEmpty && pat.isPrefixOf (c :: cs)) with
        | false =>
          simp only [hm, Bool.false_eq_true, if_false]
          have := ihf f2' cs (by simp at h1; omega) (by simp at h2; omega)
          rw [this]
        | true =>
          simp only [hm, if_true]
          have hpe : pat.isEmpty = false := by
            cases hp : pat.isEmpty
            · rfl
            · rw [hp] at hm
              simp at hm
          have hplen : 1 ≤ pat.length := by
            cases pat with
            | nil => simp at hpe
            | cons a as => simp
          have hdrop : ((c :: cs).drop pat.length).length ≤ f := by
            simp only [List.length_drop]
            simp only [List.length_cons]
            simp only [List.length_cons] at h1
            omega
          have hdrop2 : ((c :: cs).drop pat.length).length ≤ f2' := by
            simp only [List.length_drop, List.length_cons]
            simp only [List.length_cons] at h2
            omega
          rw [ihf f2' _ hdrop hdrop2]

/-- `replaceF` slides over a prefix free of the pattern's first character. -/
theorem replaceF_skip (pt rep : List Char) :
    ∀ (p t : List Char) (fuel : Nat), (p ++ t).length ≤ fuel →
    (∀ c ∈ p, c ≠ '\x7b') →
    replaceF ('\x7b' :: pt) rep fuel (p ++ t) =
      p ++ replaceF ('\x7b' :: pt) rep (fuel - p.length) t := by
  intro p
  induction p with
  | nil =>
    intro t fuel h1 h2
    simp
  | cons c cp ih =>
    intro t fuel h1 h2
    cases fuel with
    | zero =>
      simp at h1
    | succ f =>
      have hc : c ≠ '\x7b' := h2 c (by simp)
      have hpre : ('\x7b' :: pt).isPrefixOf (c :: (cp ++ t)) = false := by
        simp only [List.isPrefixOf]
        have : ('\x7b' == c) = false := by
          simp [Ne.symm hc]
        rw [this]
        simp
      simp only [List.cons_append, replaceF, List.append_eq]
      rw [show (!('\x7b' :: pt).isEmpty && ('\x7b' :: pt).isPrefixOf (c :: (cp ++ t))) = false by
        rw [hpre]; simp]
      simp only [Bool.false_eq_true, if_false]
      rw [ih t f (by simp at h1 ⊢; omega) (fun x hx => h2 x (by simp [hx]))]
      simp only [List.length_cons]
      rw [show f + 1 - (cp.length + 1) = f - cp.length from by omega]

/-- `replaceF` replaces the pattern when it sits at the head. -/
theorem replaceF_match (pat rep : List Char) (hne : pat ≠ []) :
    ∀ (t : List Char) (fuel : Nat), pat.length + t.length ≤ fuel →
    replaceF pat rep fuel (pat ++ t) =
      rep ++ replaceF pat rep (fuel - pat.length) t := by
  intro t fuel h
  cases hp : pat with
  | nil => exact absurd hp hne
  | cons p0 pr =>
    subst hp
    cases fuel with
    | zero => simp at h
    | succ f =>
      simp only [List.cons_append, replaceF, List.append_eq]
      have hcond : (!(p0 :: pr).isEmpty &&
          (p0 :: pr).isPrefixOf (p0 :: (pr ++ t))) = true := by
        simp [List.isPrefixOf_iff_prefix]
      rw [hcond]
      simp only [if_true]
      have hdrop : List.drop (p0 :: pr).length (p0 :: (pr ++ t)) = t := by
        simp
      rw [hdrop]
      have hlt : t.length ≤ f := by
        simp only [List.length_cons] at h
        omega
      have hlt2 : t.length ≤ f + 1 - (p0 :: pr).length := by
        simp only [List.length_cons] at h ⊢
        omega
      rw [replaceF_congr (p0 :: pr) rep f (f + 1 - (p0 :: pr).length) t hlt hlt2]

/-- `joinSegs` and `joinL` agree through `String.data`. -/
theorem joinSegs_data (sep : String) :
    ∀ segs, (joinSegs sep segs).data = joinL sep.data (segs.map String.data) := by
  intro segs
  induction segs with
  | nil => rfl
  | cons s rest ih =>
    cases rest with
    | nil => rfl
    | cons s2 r2 =>
      show (s ++ sep ++ joinSegs sep (s2 :: r2)).data = _
      rw [String.data_append, String.data_append, ih]
      rfl

/-- Replacing every occurrence of a brace-headed pattern in a join of
brace-free segments yields the join on the replacement text: each occurrence
is replaced, nothing else is touched, and the replacement is never
rescanned. -/
theorem replaceF_joinL (pt rep : List Char) :
    ∀ (segs : List (List Char)), segs ≠ [] →
    (∀ s ∈ segs, ∀ c ∈ s, c ≠ '\x7b') →
    replaceF ('\x7b' :: pt) rep (joinL ('\x7b' :: pt) segs).length
      (joinL ('\x7b' :: pt) segs) = joinL rep segs := by
  intro segs
  induction segs with
  | nil => intro h _; exact absurd rfl h
  | cons s rest ih =>
    intro _ hfree
    cases rest with
    | nil =>
      show replaceF ('\x7b' :: pt) rep s.length s = s
      have h := replaceF_skip pt rep s [] s.length (by simp)
        (fun c hc => hfree s (by simp) c hc)
      rw [List.append_nil] at h
      have hnil : replaceF ('\x7b' :: pt) rep (s.length - s.length) ([] : List Char) = [] := by
        cases (s.length - s.length) <;> rfl
      rw [hnil, List.append_nil] at h
      exact h
    | cons s2 r2 =>
      show replaceF ('\x7b' :: pt) rep
        (s ++ ('\x7b' :: pt) ++ joinL ('\x7b' :: pt) (s2 :: r2)).length
        (s ++ ('\x7b' :: pt) ++ joinL ('\x7b' :: pt) (s2 :: r2)) =
        s ++ rep ++ joinL rep (s2 :: r2)
      have hfs : ∀ c ∈ s, c ≠ '\x7b' := fun c hc => hfree s (by simp) c hc
      have hfree2 : ∀ x ∈ s2 :: r2, ∀ c ∈ x, c ≠ '\x7b' :=
        fun x hx c hc => hfree x (by simp [hx]) c hc
      set J := joinL ('\x7b' :: pt) (s2 :: r2) with hJ
      set L := (s ++ ('\x7b' :: pt) ++ J).length with hL
      have hL' : L = s.length + (pt.length + 1) + J.length := by
        rw [hL]
        simp [List.length_append]
        omega
      have h1 := replaceF_skip pt rep s (('\x7b' :: pt) ++ J) L
        (by rw [hL]; simp [List.length_append]) hfs
      rw [show s ++ ('\x7b' :: pt) ++ J = s ++ (('\x7b' :: pt) ++ J) from by
        simp [List.append_assoc]]
      rw [h1]
      have h2 := replaceF_match ('\x7b' :: pt) rep (by simp) J (L - s.length)
        (by simp only [List.length_cons]; omega)
      rw [h2]
      have h3 : replaceF ('\x7b' :: pt) rep (L - s.length - ('\x7b' :: pt).length) J =
          replaceF ('\x7b' :: pt) rep J.length J := by
        apply replaceF_congr
        · simp only [List.length_cons]
          omega
        · exact le_refl _
      rw [h3, ih (by simp) hfree2]
      simp [List.append_assoc]

/-- `str.replace` over a join of brace-free segments on a brace-headed
pattern substitutes every separator occurrence and nothing else. -/
theorem pyReplace_joinSegs (patS rep : String) (segs : List String)
    (hpat : ∃ pt, patS.data = '\x7b' :: pt)
    (hne : segs ≠ [])
    (hfree : ∀ s ∈ segs, ∀ c ∈ s.data, c ≠ '\x7b') :
    pyReplace (joinSegs patS segs) patS rep = joinSegs rep segs := by
  apply String.ext
  show replaceF patS.data rep.data (joinSegs patS segs).data.length
      (joinSegs patS segs).data = (joinSegs rep segs).data
  rw [joinSegs_data, joinSegs_data]
  obtain ⟨pt, hpt⟩ := hpat
  rw [hpt]
  apply replaceF_joinL
  · simpa using hne
  · intro s hs c hc
    obtain ⟨s0, hs0, rfl⟩ := List.mem_map.mp hs
    exact hfree s0 hs0 c hc

/-- The template pattern of the `input` namespace starts with a brace. -/
theorem inputPattern_head (k : String) :
    ∃ pt, (inputPattern k).data = '\x7b' :: pt := by
  refine ⟨("\x7b input." ++ k ++ " \x7d\x7d").data, ?_⟩
  show ("\x7b\x7b input." ++ k ++ " \x7d\x7d").data = _
  simp only [String.data_append]
  rfl

/-- The template pattern of the `vars` namespace starts with a brace. -/
theorem varsPattern_head (k : String) :
    ∃ pt, (varsPattern k).data = '\x7b' :: pt := by
  refine ⟨("\x7b vars." ++ k ++ " \x7d\x7d").data, ?_⟩
  show ("\x7b\x7b vars." ++ k ++ " \x7d\x7d").data = _
  simp only [String.data_append]
  rfl

/-- Claim C5: `_interpolate` is a literal string substitution over exactly
the two namespaces: in a template built from brace-free segments joined by
the `{{ input.k }}` (resp. `{{ vars.k }}`) pattern, every occurrence of the
pattern is replaced by `str()` of the bound value and nothing else is
transformed; and concretely, `{{ input.foo }}` inside an `http_request` url
with `input_data = {"foo": "bar"}` resolves to a prepared request whose url
contains the substring `bar` before dispatch. -/
theorem claim_C5_interpolation_subst :
    (∀ (k : String) (v : JValue) (segs : List String), segs ≠ [] →
      (∀ s ∈ segs, ∀ c ∈ s.data, c ≠ '\x7b') →
      interpolate (joinSegs (inputPattern k) segs) ⟨[(k, v)], [], []⟩ =
        joinSegs (pyStr v) segs ∧
      interpolate (joinSegs (varsPattern k) segs) ⟨[], [], [(k, v)]⟩ =
        joinSegs (pyStr v) segs) ∧
    (buildHttpRequest (httpGetStep urlC5) (initCtx [("foo", .str "bar")])).toOption.map
      (fun r => containsStr r.url "bar") = some true := by
  constructor
  · intro k v segs hne hfree
    constructor
    · show pyReplace (joinSegs (inputPattern k) segs) (inputPattern k) (pyStr v) =
        joinSegs (pyStr v) segs
      exact pyReplace_joinSegs (inputPattern k) (pyStr v) segs (inputPattern_head k) hne hfree
    · show pyReplace (joinSegs (varsPattern k) segs) (varsPattern k) (pyStr v) =
        joinSegs (pyStr v) segs
      exact pyReplace_joinSegs (varsPattern k) (pyStr v) segs (varsPattern_head k) hne hfree
  · decide

/-- Witness for claim C5 at concrete key, value and segments. -/
theorem claim_C5_interpolation_subst_witness :
    ((["id=", ";next"] : List String) ≠ [] ∧
     (∀ s ∈ (["id=", ";next"] : List String), ∀ c ∈ s.data, c ≠ '\x7b')) ∧
    (interpolate (joinSegs (inputPattern "foo") ["id=", ";next"])
        ⟨[("foo", .str "bar")], [], []⟩ = joinSegs "bar" ["id=", ";next"] ∧
     interpolate (joinSegs (varsPattern "foo") ["id=", ";next"])
        ⟨[], [], [("foo", .str "bar")]⟩ = joinSegs "bar" ["id=", ";next"]) :=
  ⟨⟨by decide, by decide⟩,
    claim_C5_interpolation_subst.1 "foo" (.str "bar") ["id=", ";next"]
      (by decide) (by decide)⟩
